import Mathlib

set_option maxRecDepth 10000

/-!
Shallow embedding of the lab-maker pipeline (`src/app.py`).

The source is a single Streamlit script. The parts a claim can touch are:

* `get_lab_prompt` (lines 18-44): an f-string over `topic` and `difficulty`;
* `generate_lab` (lines 47-64): credential check, one provider call,
  markdown-fence stripping via `str.replace`, `json.loads`, a bare
  `except` that reports the error and returns `None`;
* the "Generate New Lab" button handler (lines 70-75): stores the result
  in session state only when it is truthy;
* the topology loop (lines 93-101): `connection.split('->')`,
  `parts[0].strip()`, `parts[1].strip()`, with `except: pass`;
* the download button (lines 123-128): `json.dumps(data, indent=4)`.

Python strings are modelled as Lean `String` / `List Char`; `str.replace`,
`str.split`, `str.strip`, `json.loads` and `json.dumps(·, indent=4)` are
implemented below character by character after CPython's semantics.  All
recursion is structural (explicit fuel where needed) so every definition
evaluates inside the kernel.  Two deliberate deviations from CPython, both
invisible to the claims: `str.strip` removes the ASCII whitespace range
only (the inputs involved are ASCII), and the JSON reader rejects lone
UTF-16 surrogate escapes, which a Lean `Char` cannot represent.
-/

/-- The backtick character (code point 96). -/
def bq : Char := Char.ofNat 96

/-- The opening curly brace character (code point 123). -/
def braceO : Char := Char.ofNat 123

/-- The closing curly brace character (code point 125). -/
def braceC : Char := Char.ofNat 125

/-- ASCII whitespace as removed by Python `str.strip()` (codes 9-13 and 32;
the Unicode-only whitespace Python also strips never occurs here). -/
def isPyWs (c : Char) : Bool := c.toNat = 32 || (9 ≤ c.toNat && c.toNat ≤ 13)

/-- Python `str.strip()` on a character list. -/
def pyStrip (l : List Char) : List Char :=
  ((l.dropWhile isPyWs).reverse.dropWhile isPyWs).reverse

/-- Python `str.strip()` on strings. -/
def pyStripS (s : String) : String := ⟨pyStrip s.data⟩

/-- Whether the pattern `p` occurs as a contiguous substring of the list. -/
def hasPat (p : List Char) : List Char → Bool
  | [] => p.isPrefixOf []
  | c :: l => p.isPrefixOf (c :: l) || hasPat p l

/-- Whether `pat` occurs as a substring of `s`. -/
def occursIn (pat s : String) : Bool := hasPat pat.data s.data

/-- The number of positions in the list at which the pattern `p` starts an
occurrence. -/
def countPat (p : List Char) : List Char → Nat
  | [] => 0
  | c :: l => (if p.isPrefixOf (c :: l) then 1 else 0) + countPat p l

/-- The number of positions in `s` at which `pat` starts an occurrence. -/
def countOcc (pat s : String) : Nat := countPat pat.data s.data

/-- Python `s.replace(p :: ps, "")`: scan left to right, delete each
(non-overlapping) occurrence of the pattern.  `fuel` only needs to be at
least the length of the input list. -/
def delPatF (p : Char) (ps : List Char) : Nat → List Char → List Char
  | 0, l => l
  | _ + 1, [] => []
  | f + 1, c :: cs =>
    if p = c ∧ ps.isPrefixOf cs then delPatF p ps f (cs.drop ps.length)
    else c :: delPatF p ps f cs

/-- Python `s.replace(pat, "")` on strings (the only form of `replace`
`app.py` uses is with an empty replacement). -/
def pyReplaceEmpty (pat s : String) : String :=
  match pat.data with
  | [] => s
  | p :: ps => ⟨delPatF p ps s.data.length s.data⟩

/-- Line 59: `clean_text = response.text.replace("```json", "").replace("```", "")`. -/
def cleanText (s : String) : String :=
  pyReplaceEmpty "```" (pyReplaceEmpty "```json" s)

/-- Python `s.split(p :: ps)` for a nonempty separator: all occurrences,
left to right, empty segments kept.  `fuel` only needs to be at least the
length of the input list. -/
def splitPatF (p : Char) (ps : List Char) : Nat → List Char → List (List Char)
  | 0, l => [l]
  | _ + 1, [] => [[]]
  | f + 1, c :: cs =>
    if p = c ∧ ps.isPrefixOf cs then [] :: splitPatF p ps f (cs.drop ps.length)
    else
      match splitPatF p ps f cs with
      | g :: gs => (c :: g) :: gs
      | [] => [[c]]

/-- Lines 93-101, the topology loop over `data['topology_connections']`:
`parts = connection.split('->')`, `src = parts[0].strip()`,
`dst = parts[1].strip()`, `graph.edge(src, dst)`, where the bare
`except: pass` skips exactly the entries for which `parts[1]` does not
exist (an `IndexError`; `split` always yields at least one part, and
`graphviz.Digraph.edge` accepts any strings, empty ones included). -/
def topology_connections_edges (conns : List String) : List (String × String) :=
  conns.filterMap fun c =>
    match splitPatF '-' ['>'] c.data.length c.data with
    | a :: b :: _ => some (⟨pyStrip a⟩, ⟨pyStrip b⟩)
    | _ => none

/-- Modelled from the spec (section 4.3 words, used only to compare the
claimed extractor against the implemented one): split each entry on the
FIRST occurrence of `->`; discard the entry unless this yields exactly two
segments that are nonempty after trimming; otherwise emit the two trimmed
segments.  First the first-occurrence split itself. -/
def splitFirstF (p : Char) (ps : List Char) : Nat → List Char → Option (List Char × List Char)
  | 0, _ => none
  | _ + 1, [] => none
  | f + 1, c :: cs =>
    if p = c ∧ ps.isPrefixOf cs then some ([], cs.drop ps.length)
    else (splitFirstF p ps f cs).map fun pr => (c :: pr.1, pr.2)

/-- Modelled from the spec (section 4.3 / claim C3 words): the topology
extractor as the spec describes it. -/
def specTopologyEdges (conns : List String) : List (String × String) :=
  conns.filterMap fun c =>
    match splitFirstF '-' ['>'] c.data.length c.data with
    | some (a, b) =>
      if pyStrip a ≠ [] ∧ pyStrip b ≠ [] then some (⟨pyStrip a⟩, ⟨pyStrip b⟩)
      else none
    | none => none

/-- Line 13: the five selectable topics. -/
def topics : List String :=
  ["OSPF Single Area", "VLANs & Trunking", "ACL (Standard/Extended)",
   "NAT (Static/Dynamic)", "BGP Basics"]

/-- Line 14: the three difficulty levels. -/
def difficulties : List String := ["Junior Admin", "Network Engineer", "CCIE Expert"]

/-- The f-string of `get_lab_prompt` up to `{topic}` (lines 19-21). -/
def promptPartA : String :=
  "\n    Act as a Cisco Certified Internetwork Expert (CCIE).\n    Create a CCNA Practice Lab for the topic: "

/-- The f-string between `{topic}` and `{difficulty}` (lines 21-22). -/
def promptPartB : String := ".\n    Difficulty Level: "

/-- The f-string after `{difficulty}` (lines 22-44); `\x7b` and `\x7d` are
the literal braces the doubled `{{`/`}}` of the f-string produce. -/
def promptPartC : String :=
  ".\n\n    You MUST return the output in valid JSON format ONLY. Do not add markdown backticks (```json).\n    Structure the JSON exactly like this:\n    \x7b\n        \"lab_title\": \"String\",\n        \"scenario_description\": \"String (Short business context)\",\n        \"topology_connections\": [\n            \"Router1 (G0/0) -> Switch1 (G0/1)\",\n            \"Switch1 (F0/1) -> PC1\"\n        ],\n        \"device_configurations\": \x7b\n            \"Router1\": \"IP: 192.168.1.1/24\",\n            \"PC1\": \"IP: 192.168.1.10/24\"\n        \x7d,\n        \"tasks\": [\n            \"Step 1: ...\",\n            \"Step 2: ...\"\n        ],\n        \"solution_commands\": \"Full IOS command list to solve it\",\n        \"verification_commands\": \"List of 'show' commands to verify\"\n    \x7d\n    "

/-- Lines 18-44: `get_lab_prompt(topic, difficulty)`, the f-string as the
concatenation of its literal chunks and the two interpolations. -/
def get_lab_prompt (topic difficulty : String) : String :=
  promptPartA ++ topic ++ promptPartB ++ difficulty ++ promptPartC

/-- The fixed instruction sentence on line 24 of the f-string; it is the
part of the prompt that itself contains a three-backtick sequence. -/
def fenceInstruction : String := "Do not add markdown backticks (```json)."

/-- A parsed JSON value, the result type of `json.loads`.  Numbers keep
their source lexeme (the Lab schema contains no numbers, so their numeric
value is never needed); objects keep their key/value pairs in source order,
as the dictionaries relevant here (produced by `json.dumps` of a dict)
never repeat a key. -/
inductive JVal where
  | null : JVal
  | bool : Bool → JVal
  | num : String → JVal
  | str : String → JVal
  | arr : List JVal → JVal
  | obj : List (String × JVal) → JVal

/-- Hexadecimal digit character (lowercase, as CPython's `'%04x'`). -/
def hexDigitChar (n : Nat) : Char :=
  if n < 10 then Char.ofNat (48 + n) else Char.ofNat (87 + n)

/-- The value of a hexadecimal digit character, either case. -/
def hexVal (c : Char) : Option Nat :=
  if 48 ≤ c.toNat ∧ c.toNat ≤ 57 then some (c.toNat - 48)
  else if 97 ≤ c.toNat ∧ c.toNat ≤ 102 then some (c.toNat - 87)
  else if 65 ≤ c.toNat ∧ c.toNat ≤ 70 then some (c.toNat - 55)
  else none

/-- Four-digit lowercase hex rendering of `n < 0x10000`. -/
def toHex4 (n : Nat) : List Char :=
  [hexDigitChar (n / 4096 % 16), hexDigitChar (n / 256 % 16),
   hexDigitChar (n / 16 % 16), hexDigitChar (n % 16)]

/-- CPython `json.encoder.py_encode_basestring_ascii`, one character:
short escapes for quote, backslash and the five named controls, `\uXXXX`
(with a surrogate pair above `0xFFFF`) for the other controls and for all
non-ASCII characters, the plain character otherwise. -/
def escChar (c : Char) : List Char :=
  if c = '"' then ['\\', '"']
  else if c = '\\' then ['\\', '\\']
  else if c = '\n' then ['\\', 'n']
  else if c = '\r' then ['\\', 'r']
  else if c = '\t' then ['\\', 't']
  else if c.toNat = 8 then ['\\', 'b']
  else if c.toNat = 12 then ['\\', 'f']
  else if c.toNat < 32 ∨ 126 < c.toNat then
    if c.toNat < 65536 then '\\' :: 'u' :: toHex4 c.toNat
    else
      '\\' :: 'u' :: toHex4 (55296 + (c.toNat - 65536) / 1024) ++
        '\\' :: 'u' :: toHex4 (56320 + (c.toNat - 65536) % 1024)
  else [c]

/-- `escChar` over a whole string body. -/
def escList : List Char → List Char
  | [] => []
  | c :: cs => escChar c ++ escList cs

/-- A JSON string literal: quote, escaped body, quote. -/
def quoteStr (s : String) : List Char := '"' :: (escList s.data ++ ['"'])

/-- `n` spaces. -/
def spc (n : Nat) : List Char := List.replicate n ' '

mutual

/-- `json.dumps(v, indent=4)` at nesting level `lvl`: with `indent` the
item separator is `",\n" + indent`, the key separator `": "`, every item
sits on its own line indented by `4 * level` spaces, and the closing
bracket on its own line at the parent level; empty containers render as
`[]` and `{}` with no newline. -/
def ser (lvl : Nat) : JVal → List Char
  | .null => "null".data
  | .bool true => "true".data
  | .bool false => "false".data
  | .num s => s.data
  | .str s => quoteStr s
  | .arr [] => "[]".data
  | .arr (x :: xs) =>
    '[' :: '\n' :: (serItems (lvl + 1) x xs ++ '\n' :: (spc (4 * lvl) ++ [']']))
  | .obj [] => [braceO, braceC]
  | .obj (m :: ms) =>
    braceO :: '\n' :: (serMembers (lvl + 1) m ms ++ '\n' :: (spc (4 * lvl) ++ [braceC]))
termination_by v => sizeOf v
decreasing_by all_goals simp

/-- The comma-and-newline separated, indented items of a nonempty array. -/
def serItems (lvl : Nat) (x : JVal) : List JVal → List Char
  | [] => spc (4 * lvl) ++ ser lvl x
  | y :: ys => spc (4 * lvl) ++ (ser lvl x ++ ',' :: '\n' :: serItems lvl y ys)
termination_by xs => 1 + sizeOf x + sizeOf xs
decreasing_by
  all_goals simp
  all_goals omega

/-- The comma-and-newline separated, indented members of a nonempty object. -/
def serMembers (lvl : Nat) (m : String × JVal) : List (String × JVal) → List Char
  | [] => spc (4 * lvl) ++ (quoteStr m.1 ++ ':' :: ' ' :: ser lvl m.2)
  | m2 :: ms =>
    spc (4 * lvl) ++ (quoteStr m.1 ++ ':' :: ' ' :: (ser lvl m.2 ++ ',' :: '\n' :: serMembers lvl m2 ms))
termination_by ms => 1 + sizeOf m + sizeOf ms
decreasing_by
  all_goals (obtain ⟨a, b⟩ := m; simp)
  all_goals omega

end

/-- `json.dumps(v, indent=4)` (line 125 serializes the session dict this
way for the download button). -/
def dumps (v : JVal) : String := ⟨ser 0 v⟩

/-- JSON whitespace (`json.decoder.WHITESPACE`: space, tab, newline,
carriage return). -/
def isJsonWs (c : Char) : Bool := c = ' ' || c = '\t' || c = '\n' || c = '\r'

/-- Skip JSON whitespace. -/
def skipWs : List Char → List Char
  | [] => []
  | c :: l => if isJsonWs c then skipWs l else c :: l

/-- Read four hex digits. -/
def parseHex4 : List Char → Option (Nat × List Char)
  | a :: b :: c :: d :: r =>
    match hexVal a, hexVal b, hexVal c, hexVal d with
    | some x, some y, some z, some w => some (4096 * x + 256 * y + 16 * z + w, r)
    | _, _, _, _ => none
  | _ => none

/-- CPython `json.decoder.py_scanstring` after the opening quote: plain
characters up to the closing quote, rejecting raw controls (strict mode),
decoding the named escapes and `\uXXXX` with surrogate-pair combining.
`fuel` only needs to be at least the length of the input. -/
def parseStrF : Nat → List Char → Option (List Char × List Char)
  | 0, _ => none
  | f + 1, l =>
    match l with
    | [] => none
    | c :: r =>
      if c = '"' then some ([], r)
      else if c = '\\' then
        match r with
        | [] => none
        | e :: r2 =>
          if e = '"' then (parseStrF f r2).map fun pr => ('"' :: pr.1, pr.2)
          else if e = '\\' then (parseStrF f r2).map fun pr => ('\\' :: pr.1, pr.2)
          else if e = '/' then (parseStrF f r2).map fun pr => ('/' :: pr.1, pr.2)
          else if e = 'b' then (parseStrF f r2).map fun pr => (Char.ofNat 8 :: pr.1, pr.2)
          else if e = 'f' then (parseStrF f r2).map fun pr => (Char.ofNat 12 :: pr.1, pr.2)
          else if e = 'n' then (parseStrF f r2).map fun pr => ('\n' :: pr.1, pr.2)
          else if e = 'r' then (parseStrF f r2).map fun pr => ('\r' :: pr.1, pr.2)
          else if e = 't' then (parseStrF f r2).map fun pr => ('\t' :: pr.1, pr.2)
          else if e = 'u' then
            match parseHex4 r2 with
            | none => none
            | some (n, r3) =>
              if 55296 ≤ n ∧ n ≤ 56319 then
                match r3 with
                | c2 :: c3 :: r4 =>
                  if c2 = '\\' ∧ c3 = 'u' then
                    match parseHex4 r4 with
                    | some (m, r5) =>
                      if 56320 ≤ m ∧ m ≤ 57343 then
                        (parseStrF f r5).map fun pr =>
                          (Char.ofNat (65536 + 1024 * (n - 55296) + (m - 56320)) :: pr.1, pr.2)
                      else none
                    | none => none
                  else none
                | _ => none
              else if 56320 ≤ n ∧ n ≤ 57343 then none
              else (parseStrF f r3).map fun pr => (Char.ofNat n :: pr.1, pr.2)
          else none
      else if c.toNat < 32 then none
      else (parseStrF f r).map fun pr => (c :: pr.1, pr.2)

/-- JSON number lexeme per `json.decoder.NUMBER_RE`:
`-?(0|[1-9]\d*)(\.\d+)?([eE][+-]?\d+)?`, returned as the matched text. -/
def parseNum (l : List Char) : Option (List Char × List Char) :=
  let (sgn, l1) :=
    match l with
    | '-' :: r => (['-'], r)
    | _ => (([] : List Char), l)
  match l1 with
  | c :: r =>
    if c = '0' ∨ ¬ c.isDigit then
      if c.isDigit then
        let (frac, r2) := parseFracPart r
        let (ex, r3) := parseExpPart r2
        some (sgn ++ c :: (frac ++ ex), r3)
      else none
    else
      let (ds, r1) := r.span Char.isDigit
      let (frac, r2) := parseFracPart r1
      let (ex, r3) := parseExpPart r2
      some (sgn ++ c :: (ds ++ frac ++ ex), r3)
  | [] => none
where
  /-- Optional `\.\d+`. -/
  parseFracPart : List Char → List Char × List Char
    | '.' :: c :: r =>
      if c.isDigit then
        let (ds, r2) := r.span Char.isDigit
        ('.' :: c :: ds, r2)
      else ([], '.' :: c :: r)
    | l => ([], l)
  /-- Optional `[eE][+-]?\d+`. -/
  parseExpPart : List Char → List Char × List Char
    | e :: rest =>
      if e = 'e' ∨ e = 'E' then
        match rest with
        | s :: c :: r =>
          if (s = '+' ∨ s = '-') ∧ c.isDigit then
            let (ds, r2) := r.span Char.isDigit
            (e :: s :: c :: ds, r2)
          else if s.isDigit then
            let (ds, r2) := (c :: r).span Char.isDigit
            (e :: s :: ds, r2)
          else ([], e :: s :: c :: r)
        | [s] => if s.isDigit then ([e, s], []) else ([], [e, s])
        | [] => ([], [e])
      else ([], e :: rest)
    | [] => ([], [])

mutual

/-- CPython `json.scanner.py_make_scanner`'s `scan_once`, with the
whitespace skipping its callers perform folded in front (the two agree on
every input): dispatch on the first non-whitespace character.  The `fuel`
drops by one on each nested value or list/object item; the caller supplies
at least `length + 1`, which the accounting lemmas below show sufficient. -/
def parseVal : Nat → List Char → Option (JVal × List Char)
  | 0, _ => none
  | f + 1, l =>
    match skipWs l with
    | [] => none
    | c :: r =>
      if c = '"' then
        match parseStrF (r.length + 1) r with
        | some (cs, rest) => some (.str ⟨cs⟩, rest)
        | none => none
      else if c = '[' then
        match skipWs r with
        | c2 :: r2 =>
          if c2 = ']' then some (.arr [], r2)
          else
            match parseItems f (c2 :: r2) with
            | some (vs, rest) => some (.arr vs, rest)
            | none => none
        | [] => none
      else if c = braceO then
        match skipWs r with
        | c2 :: r2 =>
          if c2 = braceC then some (.obj [], r2)
          else
            match parseMembers f (c2 :: r2) with
            | some (ms, rest) => some (.obj ms, rest)
            | none => none
        | [] => none
      else if c = 'n' then
        match r with
        | 'u' :: 'l' :: 'l' :: rest => some (.null, rest)
        | _ => none
      else if c = 't' then
        match r with
        | 'r' :: 'u' :: 'e' :: rest => some (.bool true, rest)
        | _ => none
      else if c = 'f' then
        match r with
        | 'a' :: 'l' :: 's' :: 'e' :: rest => some (.bool false, rest)
        | _ => none
      else if c = '-' ∨ c.isDigit then
        match parseNum (c :: r) with
        | some (lex, rest) => some (.num ⟨lex⟩, rest)
        | none => none
      else none

/-- The items of a nonempty array: value, then `,` and more items or `]`. -/
def parseItems : Nat → List Char → Option (List JVal × List Char)
  | 0, _ => none
  | f + 1, l =>
    match parseVal f l with
    | none => none
    | some (v, r) =>
      match skipWs r with
      | c :: r2 =>
        if c = ',' then
          match parseItems f r2 with
          | some (vs, rest) => some (v :: vs, rest)
          | none => none
        else if c = ']' then some ([v], r2)
        else none
      | [] => none

/-- The members of a nonempty object: `"key"`, `:`, value, then `,` and
more members or the closing brace. -/
def parseMembers : Nat → List Char → Option (List (String × JVal) × List Char)
  | 0, _ => none
  | f + 1, l =>
    match skipWs l with
    | c :: r =>
      if c = '"' then
        match parseStrF (r.length + 1) r with
        | some (k, r2) =>
          match skipWs r2 with
          | c2 :: r3 =>
            if c2 = ':' then
              match parseVal f r3 with
              | some (v, r4) =>
                match skipWs r4 with
                | c3 :: r5 =>
                  if c3 = ',' then
                    match parseMembers f r5 with
                    | some (ms, rest) => some ((⟨k⟩, v) :: ms, rest)
                    | none => none
                  else if c3 = braceC then some ([(⟨k⟩, v)], r5)
                  else none
                | [] => none
              | none => none
            else none
          | [] => none
        | none => none
      else none
    | [] => none

end

/-- `json.loads` (line 60): parse one value, then require only whitespace
to remain. -/
def loads (s : String) : Option JVal :=
  match parseVal (s.data.length + 1) s.data with
  | some (v, rest) => if skipWs rest = [] then some v else none
  | none => none

/-- The two user-visible error messages `generate_lab` can emit via
`st.error`: the missing-key message of line 49, or the
`f"Error generating lab: {e}"` of line 63 (which covers provider failures
and JSON parse failures alike). -/
inductive UIError where
  | missingKey : UIError
  | generationFailed : UIError
deriving DecidableEq

/-- What one invocation of `generate_lab` produced: its return value, the
error it displayed (if any), and how many provider calls it issued. -/
structure GenOutcome where
  lab : Option JVal
  err : Option UIError
  providerCalls : Nat

/-- Lines 47-64, `generate_lab`, with the provider
(`model.generate_content(...).text`) abstracted as the outcome of the one
call: `Except.ok text` for a returned payload, `Except.error e` for a
raised exception.  `if not api_key` is the Python truthiness test on a
string, i.e. emptiness.  The bare `except` turns any provider or
`json.loads` failure into the single error message and `None`. -/
def generate_lab (api_key : String) (provider : Except String String) : GenOutcome :=
  if api_key = "" then ⟨none, some .missingKey, 0⟩
  else
    match provider with
    | .error _ => ⟨none, some .generationFailed, 1⟩
    | .ok text =>
      match loads (cleanText text) with
      | some v => ⟨some v, none, 1⟩
      | none => ⟨none, some .generationFailed, 1⟩

/-- Python truthiness of a parsed JSON value (`if lab_data:` on line 73):
`None` and `False` are falsy, numbers are falsy when their mantissa is all
zeros, strings and containers are falsy when empty. -/
def jsonTruthy : JVal → Bool
  | .null => false
  | .bool b => b
  | .num lex =>
    ¬ ((lex.data.takeWhile fun c => ¬ (c = 'e' ∨ c = 'E')).filter Char.isDigit).all (· = '0')
  | .str s => ¬ s.isEmpty
  | .arr l => ¬ l.isEmpty
  | .obj m => ¬ m.isEmpty

/-- Lines 70-75, the "Generate New Lab" button handler: run
`generate_lab` and overwrite `st.session_state['lab_data']` only when the
result is truthy (`if lab_data:`). -/
def clickGenerate (session : Option JVal) (api_key : String)
    (provider : Except String String) : Option JVal :=
  match (generate_lab api_key provider).lab with
  | some v => if jsonTruthy v then some v else session
  | none => session

/-- The Lab record of the spec's data model (section 3), with the field
names the JSON schema of the prompt actually uses. -/
structure Lab where
  lab_title : String
  scenario_description : String
  topology_connections : List String
  device_configurations : List (String × String)
  tasks : List String
  solution_commands : String
  verification_commands : String

/-- A Lab as the JSON object `generate_lab` would have parsed it from,
keys in schema order. -/
def labToJson (lab : Lab) : JVal :=
  .obj [("lab_title", .str lab.lab_title),
        ("scenario_description", .str lab.scenario_description),
        ("topology_connections", .arr (lab.topology_connections.map .str)),
        ("device_configurations", .obj (lab.device_configurations.map fun kv => (kv.1, .str kv.2))),
        ("tasks", .arr (lab.tasks.map .str)),
        ("solution_commands", .str lab.solution_commands),
        ("verification_commands", .str lab.verification_commands)]

/-- Read a JSON value back as a string field. -/
def asStr : JVal → Option String
  | .str s => some s
  | _ => none

/-- Read back every element of a JSON array as a string. -/
def asStrAll : List JVal → Option (List String)
  | [] => some []
  | v :: vs =>
    match asStr v, asStrAll vs with
    | some st, some ss => some (st :: ss)
    | _, _ => none

/-- Read a JSON value back as a list of strings. -/
def asStrList : JVal → Option (List String)
  | .arr l => asStrAll l
  | _ => none

/-- Read back every member of a JSON object as a string-valued pair. -/
def asStrPairs : List (String × JVal) → Option (List (String × String))
  | [] => some []
  | kv :: kvs =>
    match asStr kv.2, asStrPairs kvs with
    | some st, some ss => some ((kv.1, st) :: ss)
    | _, _ => none

/-- Read a JSON value back as a string-to-string mapping. -/
def asStrMap : JVal → Option (List (String × String))
  | .obj m => asStrPairs m
  | _ => none

/-- Recover the seven Lab fields from a parsed JSON value (the display
code's `data['lab_title']`, ..., with the types the schema prescribes). -/
def labOfJson (v : JVal) : Option Lab :=
  match v with
  | .obj m => do
    let t ← (m.lookup "lab_title").bind asStr
    let sc ← (m.lookup "scenario_description").bind asStr
    let conns ← (m.lookup "topology_connections").bind asStrList
    let cfgs ← (m.lookup "device_configurations").bind asStrMap
    let ts ← (m.lookup "tasks").bind asStrList
    let sol ← (m.lookup "solution_commands").bind asStr
    let ver ← (m.lookup "verification_commands").bind asStr
    pure ⟨t, sc, conns, cfgs, ts, sol, ver⟩
  | _ => none

/-- A connection-entry fragment containing no occurrence of the `->`
delimiter. -/
def arrowFreeS (s : String) : Prop := hasPat "->".data s.data = false

instance (s : String) : Decidable (arrowFreeS s) := by
  unfold arrowFreeS; infer_instance

/-- A concrete provider payload: valid JSON carrying six of the seven
required fields, with `lab_title` missing. -/
def respNoTitle : String :=
  "\x7b\"scenario_description\": \"Branch office\", \"topology_connections\": [\"R1 -> S1\"], \"device_configurations\": \x7b\"R1\": \"ip\"\x7d, \"tasks\": [\"t\"], \"solution_commands\": \"conf t\", \"verification_commands\": \"show ip\"\x7d"

/-- The parsed form of `respNoTitle`. -/
def respNoTitleVal : JVal :=
  .obj [("scenario_description", .str "Branch office"),
        ("topology_connections", .arr [.str "R1 -> S1"]),
        ("device_configurations", .obj [("R1", .str "ip")]),
        ("tasks", .arr [.str "t"]),
        ("solution_commands", .str "conf t"),
        ("verification_commands", .str "show ip")]

/-! ### General helper lemmas -/

theorem mkData_eq (s : String) : (⟨s.data⟩ : String) = s := by cases s; rfl

theorem isPrefixOf_iff_exists {a b : List Char} :
    a.isPrefixOf b = true ↔ ∃ t, b = a ++ t := by
  constructor
  · intro h
    rcases List.isPrefixOf_iff_prefix.mp h with ⟨t, ht⟩
    exact ⟨t, ht.symm⟩
  · rintro ⟨t, rfl⟩
    exact List.isPrefixOf_iff_prefix.mpr (List.prefix_append a t)

theorem hasPat_append_of_right {p b : List Char} (a : List Char) (h : hasPat p b = true) :
    hasPat p (a ++ b) = true := by
  induction a with
  | nil => simpa using h
  | cons c a ih => simp [hasPat, ih]

theorem hasPat_self_append (p b : List Char) : hasPat p (p ++ b) = true := by
  cases p with
  | nil => cases b <;> simp [hasPat, List.isPrefixOf]
  | cons q qs =>
    have h : (q :: qs).isPrefixOf (q :: (qs ++ b)) = true :=
      isPrefixOf_iff_exists.mpr ⟨b, by simp⟩
    simp [hasPat, h]

/-! ### Claims C1, C2, C4, C6, C7, C9 -/

/-- Claim C4 (confirmed): with an empty credential string, `generate_lab`
reports the missing-credential error, returns no Lab, and issues zero
provider calls, whatever the provider would have answered. -/
theorem claim4_missing_credential (provider : Except String String) :
    (generate_lab "" provider).lab = none ∧
    (generate_lab "" provider).err = some .missingKey ∧
    (generate_lab "" provider).providerCalls = 0 :=
  ⟨rfl, rfl, rfl⟩

/-- Claim C9 (confirmed): one invocation of `generate_lab` issues at most
one provider call, on every path (missing key, provider failure, parse
failure, success). -/
theorem claim9_single_call (api_key : String) (provider : Except String String) :
    (generate_lab api_key provider).providerCalls ≤ 1 := by
  unfold generate_lab
  split_ifs
  · exact Nat.zero_le 1
  · rcases provider with e | t
    · exact Nat.le_refl 1
    · rcases h : loads (cleanText t) with _ | v <;> simp [h]

/-- Claim C7 (confirmed): on every failing generation attempt (empty
credential, provider exception, or a cleaned response that does not parse
as JSON) `generate_lab` returns no Lab and the button handler leaves the
previously stored session Lab untouched. -/
theorem claim7_failure_preserves_state (session : Option JVal) (key : String)
    (prov : Except String String)
    (hfail : key = "" ∨ (∃ e, prov = .error e) ∨
      ∃ t, prov = .ok t ∧ loads (cleanText t) = none) :
    (generate_lab key prov).lab = none ∧ clickGenerate session key prov = session := by
  have hlab : (generate_lab key prov).lab = none := by
    rcases hfail with rfl | ⟨e, rfl⟩ | ⟨t, rfl, ht⟩
    · rfl
    · by_cases hk : key = "" <;> simp [generate_lab, hk]
    · by_cases hk : key = "" <;> simp [generate_lab, hk, ht]
  refine ⟨hlab, ?_⟩
  unfold clickGenerate
  rw [hlab]

/-- Witness for C7 at a concrete failing input: empty key, stored Lab kept. -/
theorem claim7_witness :
    (generate_lab "" (.ok "x")).lab = none ∧
    clickGenerate (some (.str "old")) "" (.ok "x") = some (.str "old") :=
  claim7_failure_preserves_state (some (.str "old")) "" (.ok "x") (Or.inl rfl)

/-- Claim C1 counterexample: a provider payload that is valid JSON but
lacks `lab_title` makes `generate_lab` return the parsed partial Lab with
NO error signalled, contradicting "returns no Lab and signals a
MalformedResponse-class error". -/
theorem claim1_counterexample :
    (generate_lab "k" (.ok respNoTitle)).err = none ∧
    (generate_lab "k" (.ok respNoTitle)).lab = some respNoTitleVal ∧
    (match respNoTitleVal with
     | .obj m => m.lookup "lab_title"
     | _ => none) = none :=
  ⟨rfl, rfl, rfl⟩

/-- Claim C1 as amended (the code performs no required-field validation):
whenever the credential is nonempty and the cleaned provider payload
parses as JSON, `generate_lab` returns the parsed value unchanged with no
error and one provider call — whether or not any required field is
present. -/
theorem claim1_amended_no_validation (key text : String) (v : JVal)
    (hk : key ≠ "") (hparse : loads (cleanText text) = some v) :
    generate_lab key (.ok text) = ⟨some v, none, 1⟩ := by
  simp [generate_lab, hk, hparse]

/-- Witness for the amended C1: the empty JSON object is accepted as a Lab. -/
theorem claim1_amended_witness :
    generate_lab "k" (.ok "\x7b\x7d") = ⟨some (.obj []), none, 1⟩ :=
  claim1_amended_no_validation "k" "\x7b\x7d" (.obj []) (by decide) rfl

/-- Claim C2 counterexample: for the valid pair (OSPF Single Area, Junior
Admin) the produced prompt DOES contain the three-backtick code-fence
marker (inside "Do not add markdown backticks (```json)"), contradicting
"contains no markdown code-fence marker". -/
theorem claim2_counterexample :
    "OSPF Single Area" ∈ topics ∧ "Junior Admin" ∈ difficulties ∧
    occursIn "```" (get_lab_prompt "OSPF Single Area" "Junior Admin") = true :=
  ⟨by decide, by decide, by decide⟩

set_option maxHeartbeats 2000000 in
/-- Claim C2 as amended: for every topic and difficulty the prompt contains
both values verbatim; but the fixed instruction sentence of line 24 itself
contains the three-backtick code-fence sequence at exactly one position,
and for every pair drawn from the enumerated topic and difficulty sets the
whole prompt contains that sequence at exactly one position and contains
the instruction sentence verbatim — so the prompt's sole fence occurrence
is the one inside the instruction. -/
theorem claim2_amended_prompt :
    (∀ topic difficulty : String,
      (∃ a b, (get_lab_prompt topic difficulty).data = a ++ (topic.data ++ b)) ∧
      (∃ a b, (get_lab_prompt topic difficulty).data = a ++ (difficulty.data ++ b))) ∧
    countOcc "```" fenceInstruction = 1 ∧
    (∀ topic ∈ topics, ∀ difficulty ∈ difficulties,
      countOcc "```" (get_lab_prompt topic difficulty) = 1 ∧
      occursIn fenceInstruction (get_lab_prompt topic difficulty) = true) := by
  refine ⟨?_, by decide, by decide⟩
  intro topic difficulty
  have hdata : (get_lab_prompt topic difficulty).data =
      promptPartA.data ++ (topic.data ++ (promptPartB.data ++
        (difficulty.data ++ promptPartC.data))) := by
    simp [get_lab_prompt, String.data_append]
  exact ⟨⟨promptPartA.data, _, hdata⟩,
    ⟨promptPartA.data ++ (topic.data ++ promptPartB.data), promptPartC.data, by
      rw [hdata]; simp⟩⟩

/-- Witness for the amended C2 at the first enumerated topic/difficulty
pair. -/
theorem claim2_amended_witness :
    countOcc "```" (get_lab_prompt "OSPF Single Area" "Junior Admin") = 1 ∧
    occursIn fenceInstruction (get_lab_prompt "OSPF Single Area" "Junior Admin") = true :=
  claim2_amended_prompt.2.2 "OSPF Single Area" (by decide) "Junior Admin" (by decide)

/-- Claim C6 (confirmed): on the three-entry example the extractor returns
exactly the two well-formed edges in input order, dropping the malformed
middle entry; and the extractor distributes over concatenation, so its
output order always follows input order. -/
theorem claim6_topology_example :
    topology_connections_edges
        ["RouterA (G0/0) -> SwitchA (G0/1)", "garbage-no-arrow", "SwitchA (F0/2) -> PC1"]
      = [("RouterA (G0/0)", "SwitchA (G0/1)"), ("SwitchA (F0/2)", "PC1")] ∧
    ∀ l1 l2, topology_connections_edges (l1 ++ l2)
      = topology_connections_edges l1 ++ topology_connections_edges l2 :=
  ⟨rfl, fun l1 l2 => List.filterMap_append l1 l2 _⟩

/-! ### Split lemmas for the topology extractor (claim C3) -/

theorem splitPatF_no_sep (p : Char) (ps : List Char) (x : List Char) :
    ∀ f, x.length ≤ f → hasPat (p :: ps) x = false → splitPatF p ps f x = [x] := by
  induction x with
  | nil => intro f _ _; cases f <;> rfl
  | cons c cs ih =>
    intro f hf hocc
    simp only [List.length_cons] at hf
    obtain ⟨f', rfl⟩ : ∃ f', f = f' + 1 := ⟨f - 1, by omega⟩
    simp only [hasPat, Bool.or_eq_false_iff] at hocc
    have hnp : ¬ (p = c ∧ ps.isPrefixOf cs = true) := by
      rintro ⟨rfl, hpre⟩
      have : (p :: ps).isPrefixOf (p :: cs) = true := by
        simp [List.isPrefixOf, hpre]
      rw [this] at hocc
      exact absurd hocc.1 (by simp)
    rw [splitPatF, if_neg hnp, ih f' (by omega) hocc.2]

theorem splitArrow_append (x : List Char) : ∀ g r, r.length ≤ g →
    hasPat ['-', '>'] x = false →
    splitPatF '-' ['>'] ((g + x.length) + 1) (x ++ '-' :: '>' :: r)
      = x :: splitPatF '-' ['>'] g r := by
  induction x with
  | nil =>
    intro g r _ _
    show splitPatF '-' ['>'] (g + 1) ('-' :: '>' :: r) = [] :: splitPatF '-' ['>'] g r
    rw [splitPatF, if_pos (by simp [List.isPrefixOf])]
    rfl
  | cons c cs ih =>
    intro g r hg hocc
    simp only [hasPat, Bool.or_eq_false_iff] at hocc
    have hnp : ¬ ('-' = c ∧ (['>'] : List Char).isPrefixOf (cs ++ '-' :: '>' :: r) = true) := by
      rintro ⟨rfl, hpre⟩
      cases cs with
      | nil => simp [List.isPrefixOf] at hpre
      | cons d ds =>
        simp only [List.cons_append, List.isPrefixOf, Bool.and_eq_true, beq_iff_eq] at hpre
        rcases hpre with ⟨rfl, -⟩
        have : ('-' :: ['>']).isPrefixOf ('-' :: '>' :: ds) = true := by
          simp [List.isPrefixOf]
        rw [this] at hocc
        exact absurd hocc.1 (by simp)
    show splitPatF '-' ['>'] (((g + cs.length) + 1) + 1) (c :: (cs ++ '-' :: '>' :: r)) = _
    rw [splitPatF, if_neg hnp, ih g r hg (by
      have h2 := hocc.2
      simpa using h2)]

theorem splitPatF_ne_nil (p : Char) (ps : List Char) :
    ∀ (f : Nat) (l : List Char), splitPatF p ps f l ≠ [] := by
  intro f l
  cases f with
  | zero => simp [splitPatF]
  | succ f =>
    cases l with
    | nil => simp [splitPatF]
    | cons c cs =>
      rw [splitPatF]
      by_cases h : p = c ∧ ps.isPrefixOf cs = true
      · rw [if_pos h]; simp
      · rw [if_neg h]
        cases splitPatF p ps f cs <;> simp

/-- Every list containing an occurrence of `->` splits at the FIRST such
occurrence: the part before it is arrow-free. -/
theorem arrow_decomp : ∀ l : List Char, hasPat ['-', '>'] l = true →
    ∃ a b, l = a ++ '-' :: '>' :: b ∧ hasPat ['-', '>'] a = false := by
  intro l
  induction l with
  | nil => intro h; simp [hasPat, List.isPrefixOf] at h
  | cons c cs ih =>
    intro h
    by_cases hpre : (['-', '>'] : List Char).isPrefixOf (c :: cs) = true
    · cases cs with
      | nil => simp [List.isPrefixOf] at hpre
      | cons d ds =>
        simp only [List.isPrefixOf, Bool.and_eq_true, beq_iff_eq] at hpre
        obtain ⟨rfl, rfl, -⟩ := hpre
        exact ⟨[], ds, rfl, by simp [hasPat, List.isPrefixOf]⟩
    · have hpre' : (['-', '>'] : List Char).isPrefixOf (c :: cs) = false :=
        Bool.eq_false_iff.mpr hpre
      have hcs : hasPat ['-', '>'] cs = true := by
        rw [hasPat, hpre', Bool.false_or] at h; exact h
      obtain ⟨a, b, rfl, ha⟩ := ih hcs
      refine ⟨c :: a, b, rfl, ?_⟩
      rw [hasPat, ha, Bool.or_false]
      apply Bool.eq_false_iff.mpr
      intro hcp
      apply hpre
      obtain ⟨t, ht⟩ := isPrefixOf_iff_exists.mp hcp
      apply isPrefixOf_iff_exists.mpr
      refine ⟨t ++ '-' :: '>' :: b, ?_⟩
      have hshape : c :: (a ++ '-' :: '>' :: b) = (c :: a) ++ '-' :: '>' :: b := rfl
      rw [hshape, ht]
      simp

/-- Claim C3 counterexample: on the entry "A -> B -> C" the implemented
extractor (split on ALL occurrences, take the first two segments) and the
claimed extractor (split on the FIRST occurrence) disagree, and on "-> B"
the implemented extractor keeps an edge whose source is empty while the
claim requires the entry to be discarded. -/
theorem claim3_counterexample :
    topology_connections_edges ["A -> B -> C", "-> B"] = [("A", "B"), ("", "B")] ∧
    specTopologyEdges ["A -> B -> C", "-> B"] = [("A", "B -> C")] ∧
    topology_connections_edges ["A -> B -> C", "-> B"]
      ≠ specTopologyEdges ["A -> B -> C", "-> B"] :=
  ⟨rfl, rfl, by decide⟩

/-- Claim C3 as amended: the extractor splits each entry on EVERY
occurrence of the two-character delimiter `->` (Python `str.split`) and
emits the edge whose labels are the first two trimmed segments verbatim;
an entry is discarded only when it contains no occurrence of `->` at all,
so a segment that trims to the empty string is still kept and any text
after a second `->` is silently dropped.  The first conjunct settles every
arrow-free entry, the second every entry with exactly one arrow, the third
every entry with two or more arrows (the tail `b2` is arbitrary and may
itself contain further arrows); the last conjunct shows every entry that
does contain `->` has the shape of the second or third conjunct, so the
four together cover every possible entry. -/
theorem claim3_amended_split_all :
    (∀ (s : String) (rest : List String), arrowFreeS s →
      topology_connections_edges (s :: rest) = topology_connections_edges rest) ∧
    (∀ (a b : String) (rest : List String), arrowFreeS a → arrowFreeS b →
      topology_connections_edges ((a ++ "->" ++ b) :: rest)
        = (pyStripS a, pyStripS b) :: topology_connections_edges rest) ∧
    (∀ (a b1 b2 : String) (rest : List String), arrowFreeS a → arrowFreeS b1 →
      topology_connections_edges ((a ++ "->" ++ b1 ++ "->" ++ b2) :: rest)
        = (pyStripS a, pyStripS b1) :: topology_connections_edges rest) ∧
    (∀ s : String, ¬ arrowFreeS s → ∃ a b : String,
      s = a ++ "->" ++ b ∧ arrowFreeS a ∧
      (arrowFreeS b ∨ ∃ b1 b2 : String, b = b1 ++ "->" ++ b2 ∧ arrowFreeS b1)) := by
  refine ⟨?_, ?_, ?_, ?_⟩
  · intro a rest ha
    unfold arrowFreeS at ha
    have hsplit : splitPatF '-' ['>'] a.data.length a.data = [a.data] :=
      splitPatF_no_sep '-' ['>'] a.data a.data.length (Nat.le_refl _) ha
    unfold topology_connections_edges
    rw [List.filterMap_cons, hsplit]
  · intro a b rest ha hb
    unfold arrowFreeS at ha hb
    have hdata : (a ++ "->" ++ b).data = a.data ++ '-' :: '>' :: b.data := by
      simp [String.data_append]
    have hsplit : splitPatF '-' ['>'] (a ++ "->" ++ b).data.length ((a ++ "->" ++ b).data)
        = a.data :: [b.data] := by
      rw [hdata]
      have hlen : (a.data ++ '-' :: '>' :: b.data).length
          = (((b.data.length + 1) + a.data.length) + 1) := by
        simp only [List.length_append, List.length_cons]; omega
      rw [hlen, splitArrow_append a.data (b.data.length + 1) b.data (by omega) ha]
      rw [splitPatF_no_sep '-' ['>'] b.data (b.data.length + 1) (by omega) hb]
    unfold topology_connections_edges
    rw [List.filterMap_cons, hsplit]
    rfl
  · intro a b1 b2 rest ha hb1
    unfold arrowFreeS at ha hb1
    obtain ⟨g, gs, hgg⟩ : ∃ g gs,
        splitPatF '-' ['>'] (b2.data.length + 2) b2.data = g :: gs := by
      cases hx : splitPatF '-' ['>'] (b2.data.length + 2) b2.data with
      | nil => exact absurd hx (splitPatF_ne_nil _ _ _ _)
      | cons g gs => exact ⟨g, gs, rfl⟩
    have hdata : (a ++ "->" ++ b1 ++ "->" ++ b2).data
        = a.data ++ '-' :: '>' :: (b1.data ++ '-' :: '>' :: b2.data) := by
      simp [String.data_append]
    have hsplit : splitPatF '-' ['>'] (a ++ "->" ++ b1 ++ "->" ++ b2).data.length
        ((a ++ "->" ++ b1 ++ "->" ++ b2).data)
        = a.data :: b1.data :: g :: gs := by
      rw [hdata]
      have hlen : (a.data ++ '-' :: '>' :: (b1.data ++ '-' :: '>' :: b2.data)).length
          = (((b1.data.length + b2.data.length + 3) + a.data.length) + 1) := by
        simp only [List.length_append, List.length_cons]; omega
      rw [hlen, splitArrow_append a.data (b1.data.length + b2.data.length + 3)
        (b1.data ++ '-' :: '>' :: b2.data)
        (by simp only [List.length_append, List.length_cons]; omega) ha]
      have hlen2 : (b1.data.length + b2.data.length + 3)
          = (((b2.data.length + 2) + b1.data.length) + 1) := by omega
      rw [hlen2, splitArrow_append b1.data (b2.data.length + 2) b2.data (by omega) hb1]
      rw [hgg]
    unfold topology_connections_edges
    rw [List.filterMap_cons, hsplit]
    rfl
  · intro s hs
    have hs' : hasPat ['-', '>'] s.data = true := by
      unfold arrowFreeS at hs
      cases hx : hasPat ['-', '>'] s.data with
      | true => rfl
      | false => exact absurd hx hs
    obtain ⟨a, b, hab, ha⟩ := arrow_decomp s.data hs'
    refine ⟨⟨a⟩, ⟨b⟩, ?_, ha, ?_⟩
    · rw [← mkData_eq s]
      show String.mk s.data = String.mk ((a ++ "->".data) ++ b)
      rw [hab]
      exact congrArg String.mk (by simp)
    · by_cases hb : hasPat ['-', '>'] b = true
      · obtain ⟨b1, b2, hb12, hb1⟩ := arrow_decomp b hb
        refine Or.inr ⟨⟨b1⟩, ⟨b2⟩, ?_, hb1⟩
        show String.mk b = String.mk ((b1 ++ "->".data) ++ b2)
        rw [hb12]
        exact congrArg String.mk (by simp)
      · exact Or.inl (Bool.eq_false_iff.mpr hb)

/-- Witness for the amended C3 at concrete entries: an arrow-free entry is
dropped, a one-arrow entry yields its two trimmed segments, a double-arrow
entry keeps only the first two segments, and an entry with an empty first
segment decomposes as the theorem states instead of being discarded. -/
theorem claim3_amended_witness :
    topology_connections_edges ["no arrow"] = [] ∧
    topology_connections_edges ["A -> B"] = [("A", "B")] ∧
    topology_connections_edges ["A -> B -> C"] = [("A", "B")] ∧
    (∃ a b : String, "-> B" = a ++ "->" ++ b ∧ arrowFreeS a ∧
      (arrowFreeS b ∨ ∃ b1 b2 : String, b = b1 ++ "->" ++ b2 ∧ arrowFreeS b1)) := by
  refine ⟨?_, ?_, ?_, ?_⟩
  · exact claim3_amended_split_all.1 "no arrow" [] (by decide)
  · exact claim3_amended_split_all.2.1 "A " " B" [] (by decide) (by decide)
  · exact claim3_amended_split_all.2.2.1 "A " " B " " C" [] (by decide) (by decide)
  · exact claim3_amended_split_all.2.2.2 "-> B" (by decide)

/-! ### Deletion lemmas for the fence-stripping step (claims C5 and C10) -/

theorem delPatF_cons (p : Char) (ps : List Char) (f : Nat) (c : Char) (cs : List Char) :
    delPatF p ps (f + 1) (c :: cs)
      = if p = c ∧ ps.isPrefixOf cs then delPatF p ps f (cs.drop ps.length)
        else c :: delPatF p ps f cs := rfl

theorem delPat_no_occ (p : Char) (ps l : List Char) : ∀ f, l.length ≤ f →
    hasPat (p :: ps) l = false → delPatF p ps f l = l := by
  induction l with
  | nil => intro f _ _; cases f <;> rfl
  | cons c cs ih =>
    intro f hf hocc
    simp only [List.length_cons] at hf
    obtain ⟨f', rfl⟩ : ∃ f', f = f' + 1 := ⟨f - 1, by omega⟩
    simp only [hasPat, Bool.or_eq_false_iff] at hocc
    have hnp : ¬ (p = c ∧ ps.isPrefixOf cs = true) := by
      rintro ⟨rfl, hpre⟩
      have : (p :: ps).isPrefixOf (p :: cs) = true := by
        simp [List.isPrefixOf, hpre]
      rw [this] at hocc
      exact absurd hocc.1 (by simp)
    rw [delPatF, if_neg hnp, ih f' (by omega) hocc.2]

theorem hasPat_iff {p l : List Char} : hasPat p l = true ↔ ∃ a b, l = a ++ (p ++ b) := by
  induction l with
  | nil =>
    constructor
    · intro h
      cases p with
      | nil => exact ⟨[], [], rfl⟩
      | cons q qs => simp [hasPat, List.isPrefixOf] at h
    · rintro ⟨a, b, heq⟩
      rcases List.append_eq_nil.mp heq.symm with ⟨rfl, h2⟩
      rcases List.append_eq_nil.mp h2 with ⟨rfl, rfl⟩
      rfl
  | cons c cs ih =>
    constructor
    · intro h
      simp only [hasPat, Bool.or_eq_true] at h
      rcases h with h | h
      · rcases isPrefixOf_iff_exists.mp h with ⟨t, ht⟩
        exact ⟨[], t, by simpa using ht⟩
      · rcases ih.mp h with ⟨a, b, heq⟩
        exact ⟨c :: a, b, by simp [heq]⟩
    · rintro ⟨a, b, heq⟩
      cases a with
      | nil =>
        simp only [List.nil_append] at heq
        have hpre : p.isPrefixOf (c :: cs) = true :=
          isPrefixOf_iff_exists.mpr ⟨b, heq⟩
        simp [hasPat, hpre]
      | cons a0 as =>
        simp only [List.cons_append, List.cons.injEq] at heq
        have htail : hasPat p cs = true := ih.mpr ⟨as, b, heq.2⟩
        simp [hasPat, htail]

theorem hasPat_tick7_false (J : List Char) (h : hasPat [bq, bq, bq] J = false) :
    hasPat [bq, bq, bq, 'j', 's', 'o', 'n'] (J ++ [bq, bq, bq]) = false := by
  by_contra hne
  have htrue : hasPat [bq, bq, bq, 'j', 's', 'o', 'n'] (J ++ [bq, bq, bq]) = true := by
    revert hne
    cases hasPat [bq, bq, bq, 'j', 's', 'o', 'n'] (J ++ [bq, bq, bq]) <;> simp
  rcases hasPat_iff.mp htrue with ⟨a, b, heq⟩
  have hlen : J.length + 3 = a.length + (7 + b.length) := by
    have h0 := congrArg List.length heq
    simp only [List.length_append, List.length_cons, List.length_nil] at h0
    omega
  have hJlen : J.length = a.length + (b.length + 4) := by omega
  have h1 : (J ++ [bq, bq, bq]).take J.length = J := List.take_left _ _
  rw [heq, hJlen, List.take_append] at h1
  have h2 : ([bq, bq, bq, 'j', 's', 'o', 'n'] ++ b).take (b.length + 4)
      = bq :: bq :: bq :: 'j' :: (['s', 'o', 'n'] ++ b).take b.length := by
    show ((bq :: bq :: bq :: 'j' :: (['s', 'o', 'n'] ++ b)).take ((b.length + 3) + 1)) = _
    rw [List.take_succ_cons, List.take_succ_cons, List.take_succ_cons, List.take_succ_cons]
  rw [h2] at h1
  have hoccJ : hasPat [bq, bq, bq] J = true := by
    rw [← h1]
    exact hasPat_append_of_right a
      (hasPat_self_append [bq, bq, bq] ('j' :: (['s', 'o', 'n'] ++ b).take b.length))
  rw [hoccJ] at h
  exact absurd h (by simp)

theorem delPatF_strip_lead (p : Char) (ps X : List Char) (g : Nat) :
    delPatF p ps (g + 1) ((p :: ps) ++ X) = delPatF p ps g X := by
  show delPatF p ps (g + 1) (p :: (ps ++ X)) = _
  rw [delPatF, if_pos ⟨rfl, isPrefixOf_iff_exists.mpr ⟨X, rfl⟩⟩, List.drop_left]

theorem delTicks_append (J : List Char) : ∀ f, J.length + 3 ≤ f →
    hasPat [bq, bq, bq] J = false →
    delPatF bq [bq, bq] f (J ++ [bq, bq, bq]) = J := by
  induction J with
  | nil =>
    intro f hf _
    obtain ⟨g, rfl⟩ : ∃ g, f = g + 1 := ⟨f - 1, by omega⟩
    show delPatF bq [bq, bq] (g + 1) (bq :: [bq, bq]) = []
    rw [delPatF, if_pos ⟨rfl, isPrefixOf_iff_exists.mpr ⟨[], by simp⟩⟩]
    cases g <;> rfl
  | cons c cs ih =>
    intro f hf hocc
    simp only [List.length_cons] at hf
    obtain ⟨g, rfl⟩ : ∃ g, f = g + 1 := ⟨f - 1, by omega⟩
    simp only [hasPat, Bool.or_eq_false_iff] at hocc
    rw [List.cons_append]
    by_cases hcond : bq = c ∧ (([bq, bq] : List Char).isPrefixOf (cs ++ [bq, bq, bq])) = true
    · obtain ⟨rfl, hpre⟩ := hcond
      match cs, hocc, hpre with
      | [], hocc, hpre =>
        show delPatF bq [bq, bq] (g + 1) [bq, bq, bq, bq] = [bq]
        rw [delPatF, if_pos ⟨rfl, by decide⟩]
        show delPatF bq [bq, bq] g [bq] = [bq]
        refine delPat_no_occ bq [bq, bq] [bq] g ?_ (by decide)
        simp only [List.length_cons, List.length_nil] at hf ⊢
        omega
      | [d], hocc, hpre =>
        have hd : bq = d := by
          simpa [List.isPrefixOf] using hpre
        subst hd
        show delPatF bq [bq, bq] (g + 1) [bq, bq, bq, bq, bq] = [bq, bq]
        rw [delPatF, if_pos ⟨rfl, by decide⟩]
        show delPatF bq [bq, bq] g [bq, bq] = [bq, bq]
        refine delPat_no_occ bq [bq, bq] [bq, bq] g ?_ (by decide)
        simp only [List.length_cons, List.length_nil] at hf ⊢
        omega
      | d :: e :: cs', hocc, hpre =>
        exfalso
        have hde : bq = d ∧ bq = e := by
          simpa [List.isPrefixOf] using hpre
        obtain ⟨rfl, rfl⟩ := hde
        have hp3 : ([bq, bq, bq] : List Char).isPrefixOf (bq :: bq :: bq :: cs') = true := by
          simp [List.isPrefixOf]
        rw [hp3] at hocc
        exact absurd hocc.1 (by simp)
    · rw [delPatF_cons bq [bq, bq] g c (cs ++ [bq, bq, bq]), if_neg hcond,
        ih g (by omega) hocc.2]

theorem delTicks_keep_head (f : Nat) (t : List Char)
    (h : (([bq] : List Char).isPrefixOf t) = false) :
    (([bq] : List Char).isPrefixOf (delPatF bq [bq, bq] f t)) = false := by
  cases f with
  | zero => exact h
  | succ f' =>
    cases t with
    | nil => rfl
    | cons e t' =>
      have he : (bq == e) = false := by
        simpa [List.isPrefixOf] using h
      rw [delPatF, if_neg (by rintro ⟨rfl, -⟩; simp at he)]
      simp [List.isPrefixOf, he]

theorem delTicks_keep_head2 (f : Nat) (l : List Char)
    (h : (([bq, bq] : List Char).isPrefixOf l) = false) :
    (([bq, bq] : List Char).isPrefixOf (delPatF bq [bq, bq] f l)) = false := by
  cases f with
  | zero => exact h
  | succ f' =>
    cases l with
    | nil => rfl
    | cons c cs =>
      by_cases hc : bq = c
      · subst hc
        have hcs : (([bq] : List Char).isPrefixOf cs) = false := by
          simpa [List.isPrefixOf] using h
        have hpre2cs : (([bq, bq] : List Char).isPrefixOf cs) = false := by
          cases cs with
          | nil => rfl
          | cons d ds =>
            have hd : (bq == d) = false := by
              simpa [List.isPrefixOf] using hcs
            simp [List.isPrefixOf, hd]
        rw [delPatF, if_neg (by
          rintro ⟨-, hpre⟩
          rw [hpre2cs] at hpre
          exact Bool.noConfusion hpre)]
        have hX := delTicks_keep_head f' cs hcs
        simp [List.isPrefixOf, hX]
      · have hc' : (bq == c) = false := by
          simpa using hc
        rw [delPatF, if_neg (by rintro ⟨rfl, -⟩; simp at hc')]
        simp [List.isPrefixOf, hc']

theorem delTicks_no_occ (f : Nat) : ∀ l : List Char, l.length ≤ f →
    hasPat [bq, bq, bq] (delPatF bq [bq, bq] f l) = false := by
  induction f with
  | zero =>
    intro l hl
    match l, hl with
    | [], _ => rfl
  | succ f' ih =>
    intro l hl
    match l with
    | [] => rfl
    | c :: cs =>
      simp only [List.length_cons] at hl
      by_cases hcond : bq = c ∧ (([bq, bq] : List Char).isPrefixOf cs) = true
      · rw [delPatF, if_pos hcond]
        exact ih (cs.drop 2) (by simp [List.length_drop]; omega)
      · rw [delPatF, if_neg hcond]
        have htail : hasPat [bq, bq, bq] (delPatF bq [bq, bq] f' cs) = false :=
          ih cs (by omega)
        have hhead : (([bq, bq, bq] : List Char).isPrefixOf
            (c :: delPatF bq [bq, bq] f' cs)) = false := by
          by_cases hc : bq = c
          · subst hc
            have hcs2 : (([bq, bq] : List Char).isPrefixOf cs) = false := by
              revert hcond
              cases (([bq, bq] : List Char).isPrefixOf cs) <;> simp
            have hX := delTicks_keep_head2 f' cs hcs2
            simpa [List.isPrefixOf] using hX
          · have hc' : (bq == c) = false := by simpa using hc
            simp [List.isPrefixOf, hc']
        simp [hasPat, hhead, htail]

theorem cleanText_fence_wrapped (J : String)
    (hfree : hasPat [bq, bq, bq] J.data = false) :
    cleanText ("```json" ++ J ++ "```") = J := by
  have e7 : ("```json" : String).data = bq :: ([bq, bq, 'j', 's', 'o', 'n'] : List Char) := by
    decide
  have e3 : ("```" : String).data = [bq, bq, bq] := by decide
  have hdata : (("```json" ++ J ++ "```") : String).data
      = (bq :: ([bq, bq, 'j', 's', 'o', 'n'] : List Char)) ++ (J.data ++ [bq, bq, bq]) := by
    have h0 : (("```json" ++ J ++ "```") : String).data
        = ("```json" : String).data ++ (J.data ++ ("```" : String).data) := by
      rw [String.data_append, String.data_append, List.append_assoc]
    rw [h0, e7, e3]
  have hlen1 : (("```json" ++ J ++ "```") : String).data.length = ((J.data.length + 9) + 1) := by
    rw [hdata]
    simp only [List.length_append, List.length_cons, List.length_nil]
    omega
  have h1 : pyReplaceEmpty "```json" ("```json" ++ J ++ "```")
      = (⟨J.data ++ [bq, bq, bq]⟩ : String) := by
    show (⟨delPatF bq [bq, bq, 'j', 's', 'o', 'n']
        (("```json" ++ J ++ "```") : String).data.length
        (("```json" ++ J ++ "```") : String).data⟩ : String) = _
    rw [hlen1, hdata]
    rw [delPatF_strip_lead bq [bq, bq, 'j', 's', 'o', 'n']
      (J.data ++ [bq, bq, bq]) (J.data.length + 9)]
    rw [delPat_no_occ bq [bq, bq, 'j', 's', 'o', 'n'] (J.data ++ [bq, bq, bq])
      (J.data.length + 9)
      (by simp only [List.length_append, List.length_cons, List.length_nil]; omega)
      (hasPat_tick7_false J.data hfree)]
  have h2 : pyReplaceEmpty "```" (⟨J.data ++ [bq, bq, bq]⟩ : String) = J := by
    show (⟨delPatF bq [bq, bq] (J.data ++ [bq, bq, bq]).length
        (J.data ++ [bq, bq, bq])⟩ : String) = J
    rw [delTicks_append J.data (J.data ++ [bq, bq, bq]).length
      (by simp only [List.length_append, List.length_cons, List.length_nil]; omega) hfree]
  show pyReplaceEmpty "```" (pyReplaceEmpty "```json" ("```json" ++ J ++ "```")) = J
  rw [h1, h2]

/-- Claim C5 counterexample: the JSON text `["```"]` parses, but wrapping
it in fence markers and cleaning does NOT return the original text — the
fence sequence inside the string literal is deleted too. -/
theorem claim5_counterexample :
    loads "[\"```\"]" = some (.arr [.str "```"]) ∧
    cleanText ("```json" ++ "[\"```\"]" ++ "```") ≠ "[\"```\"]" :=
  ⟨rfl, by decide⟩

/-- Claim C5 as amended: for every JSON text J that contains no
three-backtick sequence of its own, cleaning the fence-wrapped response
yields exactly J, and parsing the cleaned text succeeds with the same
value as parsing J. -/
theorem claim5_amended_fence_strip (J : String) (v : JVal)
    (hfree : occursIn "```" J = false) (hparse : loads J = some v) :
    cleanText ("```json" ++ J ++ "```") = J ∧
    loads (cleanText ("```json" ++ J ++ "```")) = some v := by
  have hfree' : hasPat [bq, bq, bq] J.data = false := by
    have e3 : ("```" : String).data = [bq, bq, bq] := by decide
    unfold occursIn at hfree
    rwa [e3] at hfree
  have hclean := cleanText_fence_wrapped J hfree'
  exact ⟨hclean, by rw [hclean]; exact hparse⟩

/-- Witness for the amended C5 at a concrete fence-free JSON text. -/
theorem claim5_amended_witness :
    cleanText ("```json" ++ "[\"ok\"]" ++ "```") = "[\"ok\"]" ∧
    loads (cleanText ("```json" ++ "[\"ok\"]" ++ "```")) = some (.arr [.str "ok"]) :=
  claim5_amended_fence_strip "[\"ok\"]" (.arr [.str "ok"]) (by decide) rfl

/-- Claim C10 (confirmed): the cleanup step deletes every occurrence of
the fence markers anywhere in the text — after cleaning, no three-backtick
sequence remains in any response — and in particular a valid JSON response
whose `solution_commands` string legitimately contains fences has that
field content silently altered before parsing. -/
theorem claim10_fence_removal :
    (∀ s : String, occursIn "```" (cleanText s) = false) ∧
    loads "\x7b\"solution_commands\": \"use ```bash``` fences\"\x7d"
      = some (.obj [("solution_commands", .str "use ```bash``` fences")]) ∧
    cleanText "\x7b\"solution_commands\": \"use ```bash``` fences\"\x7d"
      = "\x7b\"solution_commands\": \"use bash fences\"\x7d" ∧
    loads (cleanText "\x7b\"solution_commands\": \"use ```bash``` fences\"\x7d")
      = some (.obj [("solution_commands", .str "use bash fences")]) := by
  refine ⟨?_, rfl, by decide, rfl⟩
  intro s
  have e3 : ("```" : String).data = [bq, bq, bq] := by decide
  unfold occursIn cleanText
  rw [e3]
  show hasPat [bq, bq, bq]
      (delPatF bq [bq, bq] (pyReplaceEmpty "```json" s).data.length
        (pyReplaceEmpty "```json" s).data) = false
  exact delTicks_no_occ _ _ (Nat.le_refl _)

/-! ### String-escape round trip (towards claim C8) -/

theorem char_valid_nat (c : Char) :
    c.toNat < 55296 ∨ (57343 < c.toNat ∧ c.toNat < 1114112) := c.valid

theorem hexVal_hexDigitChar : ∀ n : Fin 16, hexVal (hexDigitChar n.val) = some n.val := by
  decide

theorem hexVal_hexDigitChar' (n : Nat) (h : n < 16) : hexVal (hexDigitChar n) = some n :=
  hexVal_hexDigitChar ⟨n, h⟩

theorem parseHex4_toHex4 (n : Nat) (h : n < 65536) (r : List Char) :
    parseHex4 (toHex4 n ++ r) = some (n, r) := by
  have h3 := hexVal_hexDigitChar' (n / 4096 % 16) (Nat.mod_lt _ (by omega))
  have h2 := hexVal_hexDigitChar' (n / 256 % 16) (Nat.mod_lt _ (by omega))
  have h1 := hexVal_hexDigitChar' (n / 16 % 16) (Nat.mod_lt _ (by omega))
  have h0 := hexVal_hexDigitChar' (n % 16) (Nat.mod_lt _ (by omega))
  show parseHex4 (hexDigitChar (n / 4096 % 16) :: hexDigitChar (n / 256 % 16)
      :: hexDigitChar (n / 16 % 16) :: hexDigitChar (n % 16) :: r) = some (n, r)
  simp only [parseHex4, h3, h2, h1, h0]
  have harith : 4096 * (n / 4096 % 16) + 256 * (n / 256 % 16) + 16 * (n / 16 % 16) + n % 16
      = n := by omega
  rw [harith]

theorem escChar_length_pos (c : Char) : 1 ≤ (escChar c).length := by
  unfold escChar
  split_ifs <;> simp [toHex4]

theorem escList_length_ge (sd : List Char) : sd.length ≤ (escList sd).length := by
  induction sd with
  | nil => simp [escList]
  | cons c cs ih =>
    simp only [escList, List.length_append, List.length_cons]
    have := escChar_length_pos c
    omega

theorem parseStrF_plain_step (c : Char) (F : Nat) (r : List Char) (h1 : ¬ c = '"')
    (h2 : ¬ c = '\\') (h3 : ¬ c.toNat < 32) :
    parseStrF (F + 1) (c :: r) = (parseStrF F r).map fun pr => (c :: pr.1, pr.2) := by
  simp only [parseStrF]
  rw [if_neg h1, if_neg h2, if_neg h3]

theorem parseStrF_u_step (F n : Nat) (hlt : n < 65536) (hA : ¬ (55296 ≤ n ∧ n ≤ 56319))
    (hB : ¬ (56320 ≤ n ∧ n ≤ 57343)) (r : List Char) :
    parseStrF (F + 1) ('\\' :: 'u' :: (toHex4 n ++ r))
      = (parseStrF F r).map fun pr => (Char.ofNat n :: pr.1, pr.2) := by
  have hbody : parseStrF (F + 1) ('\\' :: 'u' :: (toHex4 n ++ r))
      = (match parseHex4 (toHex4 n ++ r) with
        | none => none
        | some (m, r3) =>
          if 55296 ≤ m ∧ m ≤ 56319 then
            (match r3 with
            | c2 :: c3 :: r4 =>
              if c2 = '\\' ∧ c3 = 'u' then
                match parseHex4 r4 with
                | some (m2, r5) =>
                  if 56320 ≤ m2 ∧ m2 ≤ 57343 then
                    (parseStrF F r5).map fun pr =>
                      (Char.ofNat (65536 + 1024 * (m - 55296) + (m2 - 56320)) :: pr.1, pr.2)
                  else none
                | none => none
              else none
            | _ => none)
          else if 56320 ≤ m ∧ m ≤ 57343 then none
          else (parseStrF F r3).map fun pr => (Char.ofNat m :: pr.1, pr.2)) := rfl
  rw [hbody, parseHex4_toHex4 n hlt r]
  show (if 55296 ≤ n ∧ n ≤ 56319 then
        (match r with
        | c2 :: c3 :: r4 =>
          if c2 = '\\' ∧ c3 = 'u' then
            match parseHex4 r4 with
            | some (m2, r5) =>
              if 56320 ≤ m2 ∧ m2 ≤ 57343 then
                (parseStrF F r5).map fun pr =>
                  (Char.ofNat (65536 + 1024 * (n - 55296) + (m2 - 56320)) :: pr.1, pr.2)
              else none
            | none => none
          else none
        | _ => none)
      else if 56320 ≤ n ∧ n ≤ 57343 then none
      else (parseStrF F r).map fun pr => (Char.ofNat n :: pr.1, pr.2)) = _
  rw [if_neg hA, if_neg hB]

theorem parseStrF_u_pair_step (F n m : Nat) (h1 : 55296 ≤ n) (h2 : n ≤ 56319)
    (h3 : 56320 ≤ m) (h4 : m ≤ 57343) (r : List Char) :
    parseStrF (F + 1) ('\\' :: 'u' :: (toHex4 n ++ ('\\' :: 'u' :: (toHex4 m ++ r))))
      = (parseStrF F r).map fun pr =>
          (Char.ofNat (65536 + 1024 * (n - 55296) + (m - 56320)) :: pr.1, pr.2) := by
  have hbody : parseStrF (F + 1) ('\\' :: 'u' :: (toHex4 n ++ ('\\' :: 'u' :: (toHex4 m ++ r))))
      = (match parseHex4 (toHex4 n ++ ('\\' :: 'u' :: (toHex4 m ++ r))) with
        | none => none
        | some (m1, r3) =>
          if 55296 ≤ m1 ∧ m1 ≤ 56319 then
            (match r3 with
            | c2 :: c3 :: r4 =>
              if c2 = '\\' ∧ c3 = 'u' then
                match parseHex4 r4 with
                | some (m2, r5) =>
                  if 56320 ≤ m2 ∧ m2 ≤ 57343 then
                    (parseStrF F r5).map fun pr =>
                      (Char.ofNat (65536 + 1024 * (m1 - 55296) + (m2 - 56320)) :: pr.1, pr.2)
                  else none
                | none => none
              else none
            | _ => none)
          else if 56320 ≤ m1 ∧ m1 ≤ 57343 then none
          else (parseStrF F r3).map fun pr => (Char.ofNat m1 :: pr.1, pr.2)) := rfl
  rw [hbody, parseHex4_toHex4 n (by omega) _]
  show (if 55296 ≤ n ∧ n ≤ 56319 then
        (match ('\\' :: 'u' :: (toHex4 m ++ r)) with
        | c2 :: c3 :: r4 =>
          if c2 = '\\' ∧ c3 = 'u' then
            match parseHex4 r4 with
            | some (m2, r5) =>
              if 56320 ≤ m2 ∧ m2 ≤ 57343 then
                (parseStrF F r5).map fun pr =>
                  (Char.ofNat (65536 + 1024 * (n - 55296) + (m2 - 56320)) :: pr.1, pr.2)
              else none
            | none => none
          else none
        | _ => none)
      else if 56320 ≤ n ∧ n ≤ 57343 then none
      else (parseStrF F ('\\' :: 'u' :: (toHex4 m ++ r))).map
        fun pr => (Char.ofNat n :: pr.1, pr.2)) = _
  rw [if_pos ⟨h1, h2⟩]
  show (if ('\\' : Char) = '\\' ∧ ('u' : Char) = 'u' then
        match parseHex4 (toHex4 m ++ r) with
        | some (m2, r5) =>
          if 56320 ≤ m2 ∧ m2 ≤ 57343 then
            (parseStrF F r5).map fun pr =>
              (Char.ofNat (65536 + 1024 * (n - 55296) + (m2 - 56320)) :: pr.1, pr.2)
          else none
        | none => none
      else none) = _
  rw [if_pos ⟨rfl, rfl⟩, parseHex4_toHex4 m (by omega) r]
  show (if 56320 ≤ m ∧ m ≤ 57343 then
      (parseStrF F r).map fun pr =>
        (Char.ofNat (65536 + 1024 * (n - 55296) + (m - 56320)) :: pr.1, pr.2)
      else none) = _
  rw [if_pos ⟨h3, h4⟩]

theorem parseStrF_escList (sd : List Char) : ∀ (g : Nat) (rest : List Char),
    parseStrF ((g + sd.length) + 1) (escList sd ++ '"' :: rest) = some (sd, rest) := by
  induction sd with
  | nil => intro g rest; rfl
  | cons c cs ih =>
    intro g rest
    show parseStrF (((g + cs.length) + 1) + 1) (escList (c :: cs) ++ '"' :: rest)
      = some (c :: cs, rest)
    by_cases h1 : c = '"'
    · subst h1
      show (parseStrF ((g + cs.length) + 1) (escList cs ++ '"' :: rest)).map
          (fun pr => ('"' :: pr.1, pr.2)) = some ('"' :: cs, rest)
      rw [ih g rest]
      rfl
    by_cases h2 : c = '\\'
    · subst h2
      show (parseStrF ((g + cs.length) + 1) (escList cs ++ '"' :: rest)).map
          (fun pr => ('\\' :: pr.1, pr.2)) = some ('\\' :: cs, rest)
      rw [ih g rest]
      rfl
    by_cases h3 : c = '\n'
    · subst h3
      show (parseStrF ((g + cs.length) + 1) (escList cs ++ '"' :: rest)).map
          (fun pr => ('\n' :: pr.1, pr.2)) = some ('\n' :: cs, rest)
      rw [ih g rest]
      rfl
    by_cases h4 : c = '\r'
    · subst h4
      show (parseStrF ((g + cs.length) + 1) (escList cs ++ '"' :: rest)).map
          (fun pr => ('\r' :: pr.1, pr.2)) = some ('\r' :: cs, rest)
      rw [ih g rest]
      rfl
    by_cases h5 : c = '\t'
    · subst h5
      show (parseStrF ((g + cs.length) + 1) (escList cs ++ '"' :: rest)).map
          (fun pr => ('\t' :: pr.1, pr.2)) = some ('\t' :: cs, rest)
      rw [ih g rest]
      rfl
    by_cases h6 : c.toNat = 8
    · have hc : c = Char.ofNat 8 := by rw [← Char.ofNat_toNat c, h6]
      subst hc
      show (parseStrF ((g + cs.length) + 1) (escList cs ++ '"' :: rest)).map
          (fun pr => (Char.ofNat 8 :: pr.1, pr.2)) = some (Char.ofNat 8 :: cs, rest)
      rw [ih g rest]
      rfl
    by_cases h7 : c.toNat = 12
    · have hc : c = Char.ofNat 12 := by rw [← Char.ofNat_toNat c, h7]
      subst hc
      show (parseStrF ((g + cs.length) + 1) (escList cs ++ '"' :: rest)).map
          (fun pr => (Char.ofNat 12 :: pr.1, pr.2)) = some (Char.ofNat 12 :: cs, rest)
      rw [ih g rest]
      rfl
    by_cases h8 : c.toNat < 32 ∨ 126 < c.toNat
    · have hesc : escChar c = (if c.toNat < 65536 then '\\' :: 'u' :: toHex4 c.toNat
          else '\\' :: 'u' :: toHex4 (55296 + (c.toNat - 65536) / 1024) ++
            '\\' :: 'u' :: toHex4 (56320 + (c.toNat - 65536) % 1024)) := by
        rw [escChar, if_neg h1, if_neg h2, if_neg h3, if_neg h4, if_neg h5, if_neg h6,
          if_neg h7, if_pos h8]
      by_cases h9 : c.toNat < 65536
      · have hesc1 : escChar c = '\\' :: 'u' :: toHex4 c.toNat := by rw [hesc, if_pos h9]
        have hstream : escList (c :: cs) ++ '"' :: rest
            = '\\' :: 'u' :: (toHex4 c.toNat ++ (escList cs ++ '"' :: rest)) := by
          rw [show escList (c :: cs) = escChar c ++ escList cs from rfl, hesc1]
          simp [List.cons_append, List.append_assoc]
        rw [hstream]
        rw [parseStrF_u_step ((g + cs.length) + 1) c.toNat h9
          (by rcases char_valid_nat c with h | h <;> omega)
          (by rcases char_valid_nat c with h | h <;> omega)
          (escList cs ++ '"' :: rest)]
        rw [ih g rest]
        simp [Char.ofNat_toNat]
      · have hesc2 : escChar c = ('\\' :: 'u' :: toHex4 (55296 + (c.toNat - 65536) / 1024)) ++
            ('\\' :: 'u' :: toHex4 (56320 + (c.toNat - 65536) % 1024)) := by
          rw [hesc, if_neg h9]
        have hbound : c.toNat < 1114112 := by
          rcases char_valid_nat c with h | h <;> omega
        have hstream : escList (c :: cs) ++ '"' :: rest
            = '\\' :: 'u' :: (toHex4 (55296 + (c.toNat - 65536) / 1024) ++
              ('\\' :: 'u' :: (toHex4 (56320 + (c.toNat - 65536) % 1024) ++
                (escList cs ++ '"' :: rest)))) := by
          rw [show escList (c :: cs) = escChar c ++ escList cs from rfl, hesc2]
          simp [List.cons_append, List.append_assoc]
        rw [hstream]
        rw [parseStrF_u_pair_step ((g + cs.length) + 1)
          (55296 + (c.toNat - 65536) / 1024) (56320 + (c.toNat - 65536) % 1024)
          (by omega) (by omega) (by omega) (by omega) (escList cs ++ '"' :: rest)]
        rw [ih g rest]
        have harith : 65536 + 1024 * ((c.toNat - 65536) / 1024) + (c.toNat - 65536) % 1024
            = c.toNat := by omega
        simp [harith, Char.ofNat_toNat]
    · have hesc : escChar c = [c] := by
        rw [escChar, if_neg h1, if_neg h2, if_neg h3, if_neg h4, if_neg h5, if_neg h6,
          if_neg h7, if_neg h8]
      have hstream : escList (c :: cs) ++ '"' :: rest = c :: (escList cs ++ '"' :: rest) := by
        rw [show escList (c :: cs) = escChar c ++ escList cs from rfl, hesc]
        simp
      rw [hstream, parseStrF_plain_step c ((g + cs.length) + 1)
        (escList cs ++ '"' :: rest) h1 h2 (by omega)]
      rw [ih g rest]
      rfl

theorem parseStrF_auto (s : String) (rest : List Char) :
    parseStrF ((escList s.data ++ '"' :: rest).length + 1) (escList s.data ++ '"' :: rest)
      = some (s.data, rest) := by
  have hge := escList_length_ge s.data
  obtain ⟨g, hg⟩ : ∃ g, (escList s.data ++ '"' :: rest).length + 1 = (g + s.data.length) + 1 :=
    ⟨(escList s.data ++ '"' :: rest).length - s.data.length, by
      simp only [List.length_append, List.length_cons]
      omega⟩
  rw [hg, parseStrF_escList]

/-! ### Whitespace and parser-step lemmas (towards claim C8) -/

theorem skipWs_ws_cons {c : Char} (l : List Char) (h : isJsonWs c = true) :
    skipWs (c :: l) = skipWs l := by
  simp [skipWs, h]

theorem skipWs_not_ws {c : Char} (l : List Char) (h : isJsonWs c = false) :
    skipWs (c :: l) = c :: l := by
  simp [skipWs, h]

theorem skipWs_sp (n : Nat) (l : List Char) : skipWs (spc n ++ l) = skipWs l := by
  induction n with
  | zero => rfl
  | succ n ih =>
    show skipWs (' ' :: (spc n ++ l)) = skipWs l
    rw [skipWs_ws_cons _ (by decide), ih]

theorem skipWs_idem (l : List Char) : skipWs (skipWs l) = skipWs l := by
  induction l with
  | nil => rfl
  | cons c l ih =>
    by_cases h : isJsonWs c = true
    · rw [skipWs_ws_cons l h]
      exact ih
    · have h' : isJsonWs c = false := by
        revert h
        cases isJsonWs c <;> simp
      simp [skipWs_not_ws l h']

theorem skipWs_nl_sp {c : Char} (n : Nat) (z : List Char) (h : isJsonWs c = false) :
    skipWs ('\n' :: (spc n ++ (c :: z))) = c :: z := by
  rw [skipWs_ws_cons _ (by decide), skipWs_sp, skipWs_not_ws _ h]

theorem parseVal_skipWs (F : Nat) (l : List Char) :
    parseVal F (skipWs l) = parseVal F l := by
  cases F with
  | zero => rfl
  | succ f => simp only [parseVal, skipWs_idem]

theorem parseVal_ws_cons (F : Nat) {c : Char} (l : List Char) (h : isJsonWs c = true) :
    parseVal F (c :: l) = parseVal F l := by
  cases F with
  | zero => rfl
  | succ f => simp only [parseVal, skipWs_ws_cons l h]

theorem parseVal_sp (F : Nat) (n : Nat) (l : List Char) :
    parseVal F (spc n ++ l) = parseVal F l := by
  cases F with
  | zero => rfl
  | succ f => simp only [parseVal, skipWs_sp]

theorem parseItems_skipWs (F : Nat) (l : List Char) :
    parseItems F (skipWs l) = parseItems F l := by
  cases F with
  | zero => rfl
  | succ f => simp only [parseItems, parseVal_skipWs]

theorem parseMembers_skipWs (F : Nat) (l : List Char) :
    parseMembers F (skipWs l) = parseMembers F l := by
  cases F with
  | zero => rfl
  | succ f => simp only [parseMembers, skipWs_idem]

theorem parseVal_str (g : Nat) (lvl : Nat) (s : String) (rest : List Char) :
    parseVal (g + 1) (ser lvl (.str s) ++ rest) = some (.str s, rest) := by
  have hser : ser lvl (.str s) ++ rest = '"' :: (escList s.data ++ '"' :: rest) := by
    simp only [ser, quoteStr]
    simp [List.append_assoc]
  rw [hser]
  show (match parseStrF ((escList s.data ++ '"' :: rest).length + 1)
      (escList s.data ++ '"' :: rest) with
    | some (cs, r2) => some (JVal.str ⟨cs⟩, r2)
    | none => none) = some (.str s, rest)
  rw [parseStrF_auto s rest]

theorem parseVal_arr_step (F : Nat) (rT z out : List Char) (c : Char) (vs : List JVal)
    (hz : skipWs rT = c :: z) (hc : ¬ c = ']')
    (hm : parseItems F rT = some (vs, out)) :
    parseVal (F + 1) ('[' :: rT) = some (.arr vs, out) := by
  show (match skipWs rT with
    | c2 :: r2 =>
      if c2 = ']' then some (JVal.arr [], r2)
      else
        match parseItems F (c2 :: r2) with
        | some (vs', rest') => some (JVal.arr vs', rest')
        | none => none
    | [] => none) = some (.arr vs, out)
  rw [hz]
  show (if c = ']' then some (JVal.arr [], z)
    else
      match parseItems F (c :: z) with
      | some (vs', rest') => some (JVal.arr vs', rest')
      | none => none) = some (.arr vs, out)
  rw [if_neg hc]
  have hm' : parseItems F (c :: z) = some (vs, out) := by
    rw [← hz, parseItems_skipWs]
    exact hm
  rw [hm']

theorem parseVal_obj_step (F : Nat) (rT z out : List Char) (c : Char)
    (ms : List (String × JVal))
    (hz : skipWs rT = c :: z) (hc : ¬ c = braceC)
    (hm : parseMembers F rT = some (ms, out)) :
    parseVal (F + 1) (braceO :: rT) = some (.obj ms, out) := by
  show (match skipWs rT with
    | c2 :: r2 =>
      if c2 = braceC then some (JVal.obj [], r2)
      else
        match parseMembers F (c2 :: r2) with
        | some (ms', rest') => some (JVal.obj ms', rest')
        | none => none
    | [] => none) = some (.obj ms, out)
  rw [hz]
  show (if c = braceC then some (JVal.obj [], z)
    else
      match parseMembers F (c :: z) with
      | some (ms', rest') => some (JVal.obj ms', rest')
      | none => none) = some (.obj ms, out)
  rw [if_neg hc]
  have hm' : parseMembers F (c :: z) = some (ms, out) := by
    rw [← hz, parseMembers_skipWs]
    exact hm
  rw [hm']

theorem parseItems_succ (F : Nat) (l : List Char) :
    parseItems (F + 1) l
      = match parseVal F l with
        | none => none
        | some (v, r) =>
          match skipWs r with
          | c :: r2 =>
            if c = ',' then
              match parseItems F r2 with
              | some (vs, rest) => some (v :: vs, rest)
              | none => none
            else if c = ']' then some ([v], r2)
            else none
          | [] => none := rfl

theorem parseMembers_succ (F : Nat) (l : List Char) :
    parseMembers (F + 1) l
      = match skipWs l with
        | c :: r =>
          if c = '"' then
            match parseStrF (r.length + 1) r with
            | some (k, r2) =>
              match skipWs r2 with
              | c2 :: r3 =>
                if c2 = ':' then
                  match parseVal F r3 with
                  | some (v, r4) =>
                    match skipWs r4 with
                    | c3 :: r5 =>
                      if c3 = ',' then
                        match parseMembers F r5 with
                        | some (ms, rest) => some ((⟨k⟩, v) :: ms, rest)
                        | none => none
                      else if c3 = braceC then some ([(⟨k⟩, v)], r5)
                      else none
                    | [] => none
                  | none => none
                else none
              | [] => none
            | none => none
          else none
        | [] => none := rfl

theorem parseItems_strs (xs : List String) : ∀ (x : String) (g lvl m : Nat) (rest : List Char),
    parseItems ((g + xs.length) + 2)
      ('\n' :: (serItems lvl (.str x) (xs.map .str) ++ ('\n' :: (spc m ++ (']' :: rest)))))
      = some (.str x :: xs.map .str, rest) := by
  induction xs with
  | nil =>
    intro x g lvl m rest
    rw [show (g + ([] : List String).length) + 2 = ((g + ([] : List String).length) + 1) + 1
      from by omega]
    rw [parseItems_succ ((g + ([] : List String).length) + 1)]
    have hser : serItems lvl (JVal.str x) (List.map JVal.str [])
        = spc (4 * lvl) ++ ser lvl (.str x) := by
      simp [serItems]
    rw [hser, List.append_assoc]
    have hv : parseVal ((g + ([] : List String).length) + 1)
        ('\n' :: (spc (4 * lvl) ++ (ser lvl (.str x) ++ ('\n' :: (spc m ++ (']' :: rest))))))
        = some (.str x, '\n' :: (spc m ++ (']' :: rest))) := by
      rw [parseVal_ws_cons _ _ (by decide), parseVal_sp, parseVal_str]
    have hskip : skipWs ('\n' :: (spc m ++ (']' :: rest))) = ']' :: rest :=
      skipWs_nl_sp m rest (by decide)
    simp only [hv, hskip]
    simp
  | cons y ys ih =>
    intro x g lvl m rest
    rw [show (g + (y :: ys : List String).length) + 2 = (((g + ys.length) + 2) + 1)
      from by simp only [List.length_cons]; omega]
    rw [parseItems_succ ((g + ys.length) + 2)]
    have hser : serItems lvl (JVal.str x) (List.map JVal.str (y :: ys))
        = spc (4 * lvl) ++ (ser lvl (.str x) ++
            (',' :: '\n' :: serItems lvl (.str y) (List.map JVal.str ys))) := by
      simp [serItems]
    rw [hser]
    have hassoc : ('\n' :: ((spc (4 * lvl) ++ (ser lvl (.str x) ++
          (',' :: '\n' :: serItems lvl (.str y) (List.map JVal.str ys)))) ++
          ('\n' :: (spc m ++ (']' :: rest)))))
        = '\n' :: (spc (4 * lvl) ++ (ser lvl (.str x) ++
            (',' :: '\n' :: (serItems lvl (.str y) (List.map JVal.str ys) ++
              ('\n' :: (spc m ++ (']' :: rest))))))) := by
      simp [List.append_assoc]
    rw [hassoc]
    have hv : parseVal ((g + ys.length) + 2)
        ('\n' :: (spc (4 * lvl) ++ (ser lvl (.str x) ++
          (',' :: '\n' :: (serItems lvl (.str y) (List.map JVal.str ys) ++
            ('\n' :: (spc m ++ (']' :: rest))))))))
        = some (.str x, ',' :: '\n' :: (serItems lvl (.str y) (List.map JVal.str ys) ++
            ('\n' :: (spc m ++ (']' :: rest))))) := by
      rw [parseVal_ws_cons _ _ (by decide), parseVal_sp]
      rw [show (g + ys.length) + 2 = ((g + ys.length) + 1) + 1 from by omega]
      exact parseVal_str ((g + ys.length) + 1) lvl x _
    have hskip : skipWs (',' :: '\n' :: (serItems lvl (.str y) (List.map JVal.str ys) ++
        ('\n' :: (spc m ++ (']' :: rest)))))
      = ',' :: '\n' :: (serItems lvl (.str y) (List.map JVal.str ys) ++
        ('\n' :: (spc m ++ (']' :: rest)))) := skipWs_not_ws _ (by decide)
    have hih := ih y g lvl m rest
    simp only [hv, hskip, if_true]
    rw [hih]
    simp

theorem parseMembers_strs (ms : List (String × String)) :
    ∀ (k v : String) (g lvl m : Nat) (rest : List Char),
    parseMembers ((g + ms.length) + 2)
      ('\n' :: (serMembers lvl (k, .str v) (ms.map fun kv => (kv.1, JVal.str kv.2)) ++
        ('\n' :: (spc m ++ (braceC :: rest)))))
      = some ((k, JVal.str v) :: ms.map (fun kv => (kv.1, JVal.str kv.2)), rest) := by
  induction ms with
  | nil =>
    intro k v g lvl m rest
    rw [show (g + ([] : List (String × String)).length) + 2
      = ((g + ([] : List (String × String)).length) + 1) + 1 from by omega]
    rw [parseMembers_succ ((g + ([] : List (String × String)).length) + 1)]
    have hstream : ('\n' :: (serMembers lvl (k, JVal.str v)
          (([] : List (String × String)).map fun kv => (kv.1, JVal.str kv.2)) ++
          ('\n' :: (spc m ++ (braceC :: rest)))))
        = '\n' :: (spc (4 * lvl) ++ ('"' :: (escList k.data ++ ('"' :: (':' :: (' ' ::
            (ser lvl (.str v) ++ ('\n' :: (spc m ++ (braceC :: rest)))))))))) := by
      simp [serMembers, quoteStr, List.append_assoc]
    rw [hstream]
    have hskip : skipWs ('\n' :: (spc (4 * lvl) ++ ('"' :: (escList k.data ++ ('"' :: (':' :: (' ' ::
        (ser lvl (.str v) ++ ('\n' :: (spc m ++ (braceC :: rest)))))))))))
        = '"' :: (escList k.data ++ ('"' :: (':' :: (' ' ::
            (ser lvl (.str v) ++ ('\n' :: (spc m ++ (braceC :: rest)))))))) :=
      skipWs_nl_sp _ _ (by decide)
    have hkey := parseStrF_auto k (':' :: (' ' ::
      (ser lvl (.str v) ++ ('\n' :: (spc m ++ (braceC :: rest))))))
    have hskip2 : skipWs (':' :: (' ' ::
        (ser lvl (.str v) ++ ('\n' :: (spc m ++ (braceC :: rest))))))
        = ':' :: (' ' :: (ser lvl (.str v) ++ ('\n' :: (spc m ++ (braceC :: rest))))) :=
      skipWs_not_ws _ (by decide)
    have hv : parseVal ((g + ([] : List (String × String)).length) + 1)
        (' ' :: (ser lvl (.str v) ++ ('\n' :: (spc m ++ (braceC :: rest)))))
        = some (.str v, '\n' :: (spc m ++ (braceC :: rest))) := by
      rw [parseVal_ws_cons _ _ (by decide), parseVal_str]
    have hskip3 : skipWs ('\n' :: (spc m ++ (braceC :: rest))) = braceC :: rest :=
      skipWs_nl_sp _ _ (by decide)
    simp only [hskip, hkey, hskip2, hv, hskip3, if_true]
    simp [mkData_eq]
    intro h
    exact absurd h (by decide)
  | cons m2 ms' ih =>
    intro k v g lvl m rest
    rw [show (g + (m2 :: ms' : List (String × String)).length) + 2
      = (((g + ms'.length) + 2) + 1) from by simp only [List.length_cons]; omega]
    rw [parseMembers_succ ((g + ms'.length) + 2)]
    have hstream : ('\n' :: (serMembers lvl (k, JVal.str v)
          ((m2 :: ms' : List (String × String)).map fun kv => (kv.1, JVal.str kv.2)) ++
          ('\n' :: (spc m ++ (braceC :: rest)))))
        = '\n' :: (spc (4 * lvl) ++ ('"' :: (escList k.data ++ ('"' :: (':' :: (' ' ::
            (ser lvl (.str v) ++ (',' :: ('\n' ::
              (serMembers lvl (m2.1, JVal.str m2.2)
                  (ms'.map fun kv => (kv.1, JVal.str kv.2)) ++
                ('\n' :: (spc m ++ (braceC :: rest))))))))))))) := by
      simp [serMembers, quoteStr, List.append_assoc]
    rw [hstream]
    have hskip : skipWs ('\n' :: (spc (4 * lvl) ++ ('"' :: (escList k.data ++ ('"' :: (':' :: (' ' ::
        (ser lvl (.str v) ++ (',' :: ('\n' ::
          (serMembers lvl (m2.1, JVal.str m2.2) (ms'.map fun kv => (kv.1, JVal.str kv.2)) ++
            ('\n' :: (spc m ++ (braceC :: rest))))))))))))))
        = '"' :: (escList k.data ++ ('"' :: (':' :: (' ' ::
            (ser lvl (.str v) ++ (',' :: ('\n' ::
              (serMembers lvl (m2.1, JVal.str m2.2) (ms'.map fun kv => (kv.1, JVal.str kv.2)) ++
                ('\n' :: (spc m ++ (braceC :: rest))))))))))) :=
      skipWs_nl_sp _ _ (by decide)
    have hkey := parseStrF_auto k (':' :: (' ' ::
      (ser lvl (.str v) ++ (',' :: ('\n' ::
        (serMembers lvl (m2.1, JVal.str m2.2) (ms'.map fun kv => (kv.1, JVal.str kv.2)) ++
          ('\n' :: (spc m ++ (braceC :: rest)))))))))
    have hskip2 : skipWs (':' :: (' ' ::
        (ser lvl (.str v) ++ (',' :: ('\n' ::
          (serMembers lvl (m2.1, JVal.str m2.2) (ms'.map fun kv => (kv.1, JVal.str kv.2)) ++
            ('\n' :: (spc m ++ (braceC :: rest)))))))))
        = ':' :: (' ' :: (ser lvl (.str v) ++ (',' :: ('\n' ::
            (serMembers lvl (m2.1, JVal.str m2.2) (ms'.map fun kv => (kv.1, JVal.str kv.2)) ++
              ('\n' :: (spc m ++ (braceC :: rest)))))))) :=
      skipWs_not_ws _ (by decide)
    have hv : parseVal ((g + ms'.length) + 2)
        (' ' :: (ser lvl (.str v) ++ (',' :: ('\n' ::
          (serMembers lvl (m2.1, JVal.str m2.2) (ms'.map fun kv => (kv.1, JVal.str kv.2)) ++
            ('\n' :: (spc m ++ (braceC :: rest))))))))
        = some (.str v, ',' :: ('\n' ::
            (serMembers lvl (m2.1, JVal.str m2.2) (ms'.map fun kv => (kv.1, JVal.str kv.2)) ++
              ('\n' :: (spc m ++ (braceC :: rest)))))) := by
      rw [parseVal_ws_cons _ _ (by decide)]
      rw [show (g + ms'.length) + 2 = ((g + ms'.length) + 1) + 1 from by omega]
      exact parseVal_str ((g + ms'.length) + 1) lvl v _
    have hskip3 : skipWs (',' :: ('\n' ::
        (serMembers lvl (m2.1, JVal.str m2.2) (ms'.map fun kv => (kv.1, JVal.str kv.2)) ++
          ('\n' :: (spc m ++ (braceC :: rest))))))
        = ',' :: ('\n' ::
            (serMembers lvl (m2.1, JVal.str m2.2) (ms'.map fun kv => (kv.1, JVal.str kv.2)) ++
              ('\n' :: (spc m ++ (braceC :: rest))))) :=
      skipWs_not_ws _ (by decide)
    have hih := ih m2.1 m2.2 g lvl m rest
    simp only [hskip, hkey, hskip2, hv, hskip3, if_true]
    rw [hih]
    simp [mkData_eq]

theorem skipWs_serItems_str (lvl : Nat) (x : String) (ys : List JVal) (tail : List Char) :
    ∃ z, skipWs ('\n' :: (serItems lvl (.str x) ys ++ tail)) = '"' :: z := by
  cases ys with
  | nil =>
    have h1 : serItems lvl (JVal.str x) [] ++ tail
        = spc (4 * lvl) ++ ('"' :: ((escList x.data ++ ['"']) ++ tail)) := by
      simp [serItems, ser, quoteStr, List.append_assoc]
    rw [h1]
    exact ⟨_, skipWs_nl_sp _ _ (by decide)⟩
  | cons y ys' =>
    have h1 : serItems lvl (JVal.str x) (y :: ys') ++ tail
        = spc (4 * lvl) ++ ('"' :: ((escList x.data ++ ['"']) ++
            ((',' :: '\n' :: serItems lvl y ys') ++ tail))) := by
      simp [serItems, ser, quoteStr, List.append_assoc]
    rw [h1]
    exact ⟨_, skipWs_nl_sp _ _ (by decide)⟩

theorem skipWs_serMembers_head (lvl : Nat) (k : String) (w : JVal)
    (ms : List (String × JVal)) (tail : List Char) :
    ∃ z, skipWs ('\n' :: (serMembers lvl (k, w) ms ++ tail)) = '"' :: z := by
  cases ms with
  | nil =>
    have h1 : serMembers lvl (k, w) [] ++ tail
        = spc (4 * lvl) ++ ('"' :: ((escList k.data ++ ['"']) ++
            ((':' :: ' ' :: ser lvl w) ++ tail))) := by
      simp [serMembers, quoteStr, List.append_assoc]
    rw [h1]
    exact ⟨_, skipWs_nl_sp _ _ (by decide)⟩
  | cons m2 ms' =>
    have h1 : serMembers lvl (k, w) (m2 :: ms') ++ tail
        = spc (4 * lvl) ++ ('"' :: ((escList k.data ++ ['"']) ++
            ((':' :: ' ' :: (ser lvl w ++ ',' :: '\n' :: serMembers lvl m2 ms')) ++ tail))) := by
      simp [serMembers, quoteStr, List.append_assoc]
    rw [h1]
    exact ⟨_, skipWs_nl_sp _ _ (by decide)⟩

theorem parseVal_arr_strs (xs : List String) (g lvl : Nat) (rest : List Char) :
    parseVal ((g + xs.length) + 2) (ser lvl (.arr (xs.map .str)) ++ rest)
      = some (.arr (xs.map .str), rest) := by
  cases xs with
  | nil =>
    have hser : ser lvl (JVal.arr (List.map JVal.str [])) ++ rest = '[' :: (']' :: rest) := by
      simp [ser]
    rw [show (g + ([] : List String).length) + 2
      = ((g + ([] : List String).length) + 1) + 1 from by omega]
    rw [hser]
    rfl
  | cons x xs' =>
    simp only [List.map_cons]
    have hser : ser lvl (JVal.arr (JVal.str x :: List.map JVal.str xs')) ++ rest
        = '[' :: ('\n' :: (serItems (lvl + 1) (.str x) (List.map JVal.str xs') ++
            ('\n' :: (spc (4 * lvl) ++ (']' :: rest))))) := by
      simp [ser, List.append_assoc]
    rw [show (g + (x :: xs' : List String).length) + 2 = (((g + xs'.length) + 2) + 1)
      from by simp only [List.length_cons]; omega]
    rw [hser]
    obtain ⟨z, hz⟩ := skipWs_serItems_str (lvl + 1) x (List.map JVal.str xs')
      ('\n' :: (spc (4 * lvl) ++ (']' :: rest)))
    exact parseVal_arr_step ((g + xs'.length) + 2) _ z rest '"'
      (JVal.str x :: List.map JVal.str xs') hz (by decide)
      (parseItems_strs xs' x g (lvl + 1) (4 * lvl) rest)

theorem parseVal_obj_strpairs (cfg : List (String × String)) (g lvl : Nat) (rest : List Char) :
    parseVal ((g + cfg.length) + 2)
      (ser lvl (.obj (cfg.map fun kv => (kv.1, JVal.str kv.2))) ++ rest)
      = some (.obj (cfg.map fun kv => (kv.1, JVal.str kv.2)), rest) := by
  cases cfg with
  | nil =>
    have hser : ser lvl (JVal.obj (List.map (fun kv => (kv.1, JVal.str kv.2))
        ([] : List (String × String)))) ++ rest = braceO :: (braceC :: rest) := by
      simp [ser]
    rw [show (g + ([] : List (String × String)).length) + 2
      = ((g + ([] : List (String × String)).length) + 1) + 1 from by omega]
    rw [hser]
    rfl
  | cons m2 ms' =>
    simp only [List.map_cons]
    have hser : ser lvl (JVal.obj ((m2.1, JVal.str m2.2) ::
          List.map (fun kv => (kv.1, JVal.str kv.2)) ms')) ++ rest
        = braceO :: ('\n' :: (serMembers (lvl + 1) (m2.1, JVal.str m2.2)
            (List.map (fun kv => (kv.1, JVal.str kv.2)) ms') ++
            ('\n' :: (spc (4 * lvl) ++ (braceC :: rest))))) := by
      simp [ser, List.append_assoc]
    rw [show (g + (m2 :: ms' : List (String × String)).length) + 2
      = (((g + ms'.length) + 2) + 1) from by simp only [List.length_cons]; omega]
    rw [hser]
    obtain ⟨z, hz⟩ := skipWs_serMembers_head (lvl + 1) m2.1 (JVal.str m2.2)
      (List.map (fun kv => (kv.1, JVal.str kv.2)) ms')
      ('\n' :: (spc (4 * lvl) ++ (braceC :: rest)))
    exact parseVal_obj_step ((g + ms'.length) + 2) _ z rest '"'
      ((m2.1, JVal.str m2.2) :: List.map (fun kv => (kv.1, JVal.str kv.2)) ms') hz (by decide)
      (parseMembers_strs ms' m2.1 m2.2 g (lvl + 1) (4 * lvl) rest)

theorem parseMembers_step_cons (F : Nat) (k : String) (v : JVal) (m : Nat)
    (valSer restSer : List Char) (ms : List (String × JVal)) (out : List Char)
    (hv : ∀ rT, parseVal F (valSer ++ rT) = some (v, rT))
    (hms : parseMembers F ('\n' :: restSer) = some (ms, out)) :
    parseMembers (F + 1)
      ('\n' :: (spc m ++ ('"' :: (escList k.data ++ ('"' :: (':' :: (' ' ::
        (valSer ++ (',' :: ('\n' :: restSer))))))))))
      = some ((k, v) :: ms, out) := by
  rw [parseMembers_succ F]
  have hskip : skipWs ('\n' :: (spc m ++ ('"' :: (escList k.data ++ ('"' :: (':' :: (' ' ::
      (valSer ++ (',' :: ('\n' :: restSer))))))))))
      = '"' :: (escList k.data ++ ('"' :: (':' :: (' ' ::
          (valSer ++ (',' :: ('\n' :: restSer))))))) := skipWs_nl_sp _ _ (by decide)
  have hkey := parseStrF_auto k (':' :: (' ' :: (valSer ++ (',' :: ('\n' :: restSer)))))
  have hskip2 : skipWs (':' :: (' ' :: (valSer ++ (',' :: ('\n' :: restSer)))))
      = ':' :: (' ' :: (valSer ++ (',' :: ('\n' :: restSer)))) := skipWs_not_ws _ (by decide)
  have hv2 : parseVal F (' ' :: (valSer ++ (',' :: ('\n' :: restSer))))
      = some (v, ',' :: ('\n' :: restSer)) := by
    rw [parseVal_ws_cons _ _ (by decide)]
    exact hv _
  have hskip3 : skipWs (',' :: ('\n' :: restSer)) = ',' :: ('\n' :: restSer) :=
    skipWs_not_ws _ (by decide)
  simp only [hskip, hkey, hskip2, hv2, hskip3, if_true]
  rw [hms]

theorem parseMembers_step_last (F : Nat) (k : String) (v : JVal) (m m2 : Nat)
    (valSer : List Char) (out : List Char)
    (hv : ∀ rT, parseVal F (valSer ++ rT) = some (v, rT)) :
    parseMembers (F + 1)
      ('\n' :: (spc m ++ ('"' :: (escList k.data ++ ('"' :: (':' :: (' ' ::
        (valSer ++ ('\n' :: (spc m2 ++ (braceC :: out)))))))))))
      = some ([(k, v)], out) := by
  rw [parseMembers_succ F]
  have hskip : skipWs ('\n' :: (spc m ++ ('"' :: (escList k.data ++ ('"' :: (':' :: (' ' ::
      (valSer ++ ('\n' :: (spc m2 ++ (braceC :: out)))))))))))
      = '"' :: (escList k.data ++ ('"' :: (':' :: (' ' ::
          (valSer ++ ('\n' :: (spc m2 ++ (braceC :: out)))))))) := skipWs_nl_sp _ _ (by decide)
  have hkey := parseStrF_auto k (':' :: (' ' ::
    (valSer ++ ('\n' :: (spc m2 ++ (braceC :: out))))))
  have hskip2 : skipWs (':' :: (' ' :: (valSer ++ ('\n' :: (spc m2 ++ (braceC :: out))))))
      = ':' :: (' ' :: (valSer ++ ('\n' :: (spc m2 ++ (braceC :: out))))) :=
    skipWs_not_ws _ (by decide)
  have hv2 : parseVal F (' ' :: (valSer ++ ('\n' :: (spc m2 ++ (braceC :: out)))))
      = some (v, '\n' :: (spc m2 ++ (braceC :: out))) := by
    rw [parseVal_ws_cons _ _ (by decide)]
    exact hv _
  have hskip3 : skipWs ('\n' :: (spc m2 ++ (braceC :: out))) = braceC :: out :=
    skipWs_nl_sp _ _ (by decide)
  simp only [hskip, hkey, hskip2, hv2, hskip3, if_true]
  simp [mkData_eq]
  intro h
  exact absurd h (by decide)

theorem parseMembers_chain (K : Nat) (ms : List (String × JVal)) :
    ∀ (m0 : String × JVal) (g lvl m2 : Nat) (out : List Char),
    (∀ p ∈ m0 :: ms, ∀ G rT, K ≤ G → parseVal G (ser lvl p.2 ++ rT) = some (p.2, rT)) →
    parseMembers ((g + K) + (ms.length + 1))
      ('\n' :: (serMembers lvl m0 ms ++ ('\n' :: (spc m2 ++ (braceC :: out)))))
      = some (m0 :: ms, out) := by
  induction ms with
  | nil =>
    intro m0 g lvl m2 out hall
    rw [show (g + K) + (([] : List (String × JVal)).length + 1) = (g + K) + 1 from by
      simp]
    have hstream : ('\n' :: (serMembers lvl m0 [] ++ ('\n' :: (spc m2 ++ (braceC :: out)))))
        = '\n' :: (spc (4 * lvl) ++ ('"' :: (escList m0.1.data ++ ('"' :: (':' :: (' ' ::
            (ser lvl m0.2 ++ ('\n' :: (spc m2 ++ (braceC :: out)))))))))) := by
      simp [serMembers, quoteStr, List.append_assoc]
    rw [hstream]
    rw [parseMembers_step_last (g + K) m0.1 m0.2 (4 * lvl) m2 (ser lvl m0.2) out
      (fun rT => hall m0 (by simp) (g + K) rT (by omega))]
  | cons m1 ms' ih =>
    intro m0 g lvl m2 out hall
    rw [show (g + K) + ((m1 :: ms' : List (String × JVal)).length + 1)
      = ((g + K) + (ms'.length + 1)) + 1 from by simp only [List.length_cons]; omega]
    have hstream : ('\n' :: (serMembers lvl m0 (m1 :: ms') ++
          ('\n' :: (spc m2 ++ (braceC :: out)))))
        = '\n' :: (spc (4 * lvl) ++ ('"' :: (escList m0.1.data ++ ('"' :: (':' :: (' ' ::
            (ser lvl m0.2 ++ (',' :: ('\n' :: (serMembers lvl m1 ms' ++
              ('\n' :: (spc m2 ++ (braceC :: out)))))))))))))  := by
      simp [serMembers, quoteStr, List.append_assoc]
    rw [hstream]
    rw [parseMembers_step_cons ((g + K) + (ms'.length + 1)) m0.1 m0.2 (4 * lvl)
      (ser lvl m0.2) (serMembers lvl m1 ms' ++ ('\n' :: (spc m2 ++ (braceC :: out))))
      (m1 :: ms') out
      (fun rT => hall m0 (by simp) _ rT (by omega))
      (ih m1 g lvl m2 out (fun p hp G rT hG => hall p (by simp at hp ⊢; tauto) G rT hG))]

theorem parseVal_ser_labToJson (lab : Lab) (g : Nat) (rest : List Char) :
    parseVal ((((g + lab.topology_connections.length) + lab.device_configurations.length)
        + lab.tasks.length) + 10)
      (ser 0 (labToJson lab) ++ rest) = some (labToJson lab, rest) := by
  obtain ⟨t, sc, conns, cfgs, ts, sol, ver⟩ := lab
  show parseVal ((((g + conns.length) + cfgs.length) + ts.length) + 10)
      (ser 0 (labToJson ⟨t, sc, conns, cfgs, ts, sol, ver⟩) ++ rest)
      = some (labToJson ⟨t, sc, conns, cfgs, ts, sol, ver⟩, rest)
  have hser : ser 0 (labToJson ⟨t, sc, conns, cfgs, ts, sol, ver⟩) ++ rest
      = braceO :: ('\n' :: (serMembers 1 ("lab_title", JVal.str t)
          [("scenario_description", .str sc),
           ("topology_connections", .arr (conns.map .str)),
           ("device_configurations", .obj (cfgs.map fun kv => (kv.1, JVal.str kv.2))),
           ("tasks", .arr (ts.map .str)),
           ("solution_commands", .str sol),
           ("verification_commands", .str ver)] ++
          ('\n' :: (spc 0 ++ (braceC :: rest))))) := by
    simp [labToJson, ser, spc, List.append_assoc]
  rw [hser]
  rw [show (((g + conns.length) + cfgs.length) + ts.length) + 10
    = ((((g + conns.length) + cfgs.length) + ts.length) + 9) + 1 from by omega]
  obtain ⟨z, hz⟩ := skipWs_serMembers_head 1 "lab_title" (JVal.str t)
    [("scenario_description", .str sc),
     ("topology_connections", .arr (conns.map .str)),
     ("device_configurations", .obj (cfgs.map fun kv => (kv.1, JVal.str kv.2))),
     ("tasks", .arr (ts.map .str)),
     ("solution_commands", .str sol),
     ("verification_commands", .str ver)]
    ('\n' :: (spc 0 ++ (braceC :: rest)))
  refine parseVal_obj_step _ _ z rest '"' _ hz (by decide) ?_
  have hall : ∀ p ∈ (("lab_title", JVal.str t) ::
      [("scenario_description", JVal.str sc),
       ("topology_connections", JVal.arr (conns.map .str)),
       ("device_configurations", JVal.obj (cfgs.map fun kv => (kv.1, JVal.str kv.2))),
       ("tasks", JVal.arr (ts.map .str)),
       ("solution_commands", JVal.str sol),
       ("verification_commands", JVal.str ver)]),
      ∀ G rT, ((conns.length + cfgs.length) + ts.length) + 2 ≤ G →
        parseVal G (ser 1 p.2 ++ rT) = some (p.2, rT) := by
    intro p hp G rT hG
    obtain ⟨G1, rfl⟩ : ∃ G1, G = G1 + 1 := ⟨G - 1, by omega⟩
    simp only [List.mem_cons, List.not_mem_nil, or_false] at hp
    rcases hp with rfl | rfl | rfl | rfl | rfl | rfl | rfl
    · exact parseVal_str G1 1 t rT
    · exact parseVal_str G1 1 sc rT
    · obtain ⟨g2, hg2⟩ : ∃ g2, G1 + 1 = (g2 + conns.length) + 2 :=
        ⟨G1 - 1 - conns.length, by omega⟩
      rw [hg2]
      exact parseVal_arr_strs conns g2 1 rT
    · obtain ⟨g2, hg2⟩ : ∃ g2, G1 + 1 = (g2 + cfgs.length) + 2 :=
        ⟨G1 - 1 - cfgs.length, by omega⟩
      rw [hg2]
      exact parseVal_obj_strpairs cfgs g2 1 rT
    · obtain ⟨g2, hg2⟩ : ∃ g2, G1 + 1 = (g2 + ts.length) + 2 :=
        ⟨G1 - 1 - ts.length, by omega⟩
      rw [hg2]
      exact parseVal_arr_strs ts g2 1 rT
    · exact parseVal_str G1 1 sol rT
    · exact parseVal_str G1 1 ver rT
  have hchain := parseMembers_chain (((conns.length + cfgs.length) + ts.length) + 2)
    [("scenario_description", JVal.str sc),
     ("topology_connections", JVal.arr (conns.map .str)),
     ("device_configurations", JVal.obj (cfgs.map fun kv => (kv.1, JVal.str kv.2))),
     ("tasks", JVal.arr (ts.map .str)),
     ("solution_commands", JVal.str sol),
     ("verification_commands", JVal.str ver)]
    ("lab_title", JVal.str t) g 1 0 rest hall
  simp only [List.length_cons, List.length_nil] at hchain
  rw [show (((g + conns.length) + cfgs.length) + ts.length) + 9
    = (g + (((conns.length + cfgs.length) + ts.length) + 2)) + (0 + 1 + 1 + 1 + 1 + 1 + 1 + 1)
    from by omega]
  exact hchain

theorem serItems_strs_length (lvl : Nat) (x : String) (ys : List String) :
    ys.length ≤ (serItems lvl (.str x) (ys.map .str)).length := by
  induction ys generalizing x with
  | nil => simp
  | cons y ys' ih =>
    have h := ih y
    simp only [List.map_cons, serItems, List.length_append, List.length_cons]
    omega

theorem serMembers_strs_length (lvl : Nat) (k v : String) (ms : List (String × String)) :
    ms.length ≤ (serMembers lvl (k, .str v) (ms.map fun kv => (kv.1, JVal.str kv.2))).length := by
  induction ms generalizing k v with
  | nil => simp
  | cons m2 ms' ih =>
    have h := ih m2.1 m2.2
    simp only [List.map_cons, serMembers, List.length_append, List.length_cons]
    omega

theorem ser_arr_strs_length (lvl : Nat) (xs : List String) :
    xs.length ≤ (ser lvl (.arr (xs.map .str))).length := by
  cases xs with
  | nil => simp
  | cons x xs' =>
    have h := serItems_strs_length (lvl + 1) x xs'
    simp only [List.map_cons, ser, List.length_cons, List.length_append]
    simp only [List.map_cons] at h
    omega

theorem ser_obj_strpairs_length (lvl : Nat) (ms : List (String × String)) :
    ms.length ≤ (ser lvl (.obj (ms.map fun kv => (kv.1, JVal.str kv.2)))).length := by
  cases ms with
  | nil => simp
  | cons m2 ms' =>
    have h := serMembers_strs_length (lvl + 1) m2.1 m2.2 ms'
    simp only [List.map_cons, ser, List.length_cons, List.length_append]
    omega

theorem ser_labToJson_length (lab : Lab) :
    lab.topology_connections.length + lab.device_configurations.length + lab.tasks.length + 9
      ≤ (ser 0 (labToJson lab)).length := by
  obtain ⟨t, sc, conns, cfgs, ts, sol, ver⟩ := lab
  show conns.length + cfgs.length + ts.length + 9 ≤ (ser 0 (labToJson ⟨t, sc, conns, cfgs, ts, sol, ver⟩)).length
  have h1 := ser_arr_strs_length 1 conns
  have h2 := ser_obj_strpairs_length 1 cfgs
  have h3 := ser_arr_strs_length 1 ts
  simp only [labToJson, ser, serMembers, List.length_append, List.length_cons, spc,
    List.length_replicate, quoteStr, Nat.zero_add]
  omega

theorem asStrAll_map (xs : List String) : asStrAll (xs.map JVal.str) = some xs := by
  induction xs with
  | nil => rfl
  | cons x xs' ih => simp [asStrAll, asStr, ih]

theorem asStrPairs_map (ms : List (String × String)) :
    asStrPairs (ms.map fun kv => (kv.1, JVal.str kv.2)) = some ms := by
  induction ms with
  | nil => rfl
  | cons m2 ms' ih => simp [asStrPairs, asStr, ih]

theorem labOfJson_labToJson (lab : Lab) : labOfJson (labToJson lab) = some lab := by
  obtain ⟨t, sc, conns, cfgs, ts, sol, ver⟩ := lab
  simp [labOfJson, labToJson, List.lookup, asStr, asStrList, asStrMap,
    asStrAll_map, asStrPairs_map]

/-- Claim C8 (confirmed): serializing any Lab with the download format
(`json.dumps(·, indent=4)`) and parsing the text back with `json.loads`
recovers a Lab equal to the original in all seven fields. -/
theorem claim8_roundtrip (lab : Lab) :
    (loads (dumps (labToJson lab))).bind labOfJson = some lab := by
  have hlen := ser_labToJson_length lab
  obtain ⟨g, hg⟩ : ∃ g, (ser 0 (labToJson lab)).length + 1
      = (((g + lab.topology_connections.length) + lab.device_configurations.length)
          + lab.tasks.length) + 10 :=
    ⟨(ser 0 (labToJson lab)).length + 1 - lab.topology_connections.length
      - lab.device_configurations.length - lab.tasks.length - 10, by omega⟩
  have hparse := parseVal_ser_labToJson lab g []
  rw [List.append_nil] at hparse
  show (match parseVal ((dumps (labToJson lab)).data.length + 1) (dumps (labToJson lab)).data with
    | some (v, rest) => if skipWs rest = [] then some v else none
    | none => none).bind labOfJson = some lab
  rw [show (dumps (labToJson lab)).data = ser 0 (labToJson lab) from rfl, hg, hparse]
  simp [skipWs, labOfJson_labToJson]
